import Mathlib

/-! # Account balances of the charging core: increment rounding and operator construction

Shallow embedding of `accounts/libaccounts.go`:

* `roundedUsageWithIncrements` : the increment rounding of a usage;
* `newBalanceOperator`         : the factory of balance operators, keyed on the type tag;
* `newAccountBalances`         : the constructor of the account-level container.

Go values are embedded as follows.  A pointer is an `Option` (`none` is `nil`), a slice is a
`List`, a map that may be `nil` is a `GoMap`, and a run-time panic is the `Except.error` branch
of `Go`.  A function with results `(x, err error)` returns the pair of `x` and an
`Option String` holding the error text (`none` is a `nil` error).
-/

namespace Accounts

/-! ## Decimal arithmetic -/

/-- Modelled from the spec: the decimal type (`decimal.Big` of the third-party decimal library,
wrapped by `utils.Decimal`) is not part of the sources.  The spec describes it as an
arbitrary-precision signed decimal with exact arithmetic; a finite decimal is embedded as the
rational number it denotes.  The non-finite forms of the library (NaN, infinities) are the `none`
of `Option Big` in the operations below. -/
abbrev Big := ℚ

/-- Rounding modes of the decimal library (`decimal.RoundingMode`). -/
inductive RoundingMode
  | ToNearestEven
  | ToNearestAway
  | ToZero
  | AwayFromZero
  | ToNegativeInf
  | ToPositiveInf
  | ToNearestTowardZero
  deriving DecidableEq, Repr

/-- The `decimal.Context` literal of the source sets only the rounding mode. -/
structure Context where
  RoundingMode : RoundingMode
  deriving DecidableEq, Repr

/-- Modelled from the spec: `Quo` of the decimal library, exact division.  Division by zero does
not yield a finite decimal (`none`). -/
def Quo (_c : Context) (x y : Big) : Option Big :=
  if y = 0 then none else some (x / y)

/-- Integer nearest to `z` in the direction selected by the rounding mode, computed on the
numerator and denominator: `t` is the quotient truncated toward zero and `r` the remainder, which
carries the sign of `z`. -/
def roundInt (m : RoundingMode) (z : Big) : ℤ :=
  let d : ℤ := z.den
  let t := Int.tdiv z.num d
  let r := z.num - t * d
  let s := Int.sign z.num
  match m with
  | .ToZero => t
  | .AwayFromZero => if r = 0 then t else t + s
  | .ToNegativeInf => if r < 0 then t - 1 else t
  | .ToPositiveInf => if 0 < r then t + 1 else t
  | .ToNearestEven =>
      if 2 * |r| < d then t
      else if d < 2 * |r| then t + s
      else if t % 2 = 0 then t else t + s
  | .ToNearestAway => if d ≤ 2 * |r| then t + s else t
  | .ToNearestTowardZero => if d < 2 * |r| then t + s else t

/-- Modelled from the spec: `RoundToInt` of the decimal library, rounding to an integer with the
rounding mode of the context the value was created with. -/
def RoundToInt (c : Context) (z : Option Big) : Option Big :=
  z.map fun q => ((roundInt c.RoundingMode q : ℤ) : ℚ)

/-- Modelled from the spec: `utils.MultiplyBig`, the exact product of two decimals. -/
def MultiplyBig (x : Option Big) (y : Big) : Option Big :=
  x.map fun q => q * y

/-- Embedding of `roundedUsageWithIncrements`: the usage is divided by the increment in a context
whose rounding mode is `ToZero`, the quotient is rounded to an integer, and that integer is
multiplied by the increment. -/
def roundedUsageWithIncrements (usage incrm : Big) : Option Big :=
  let c : Context := { RoundingMode := .ToZero }
  let usgMaxIncrm := RoundToInt c (Quo c usage incrm)
  MultiplyBig usgMaxIncrm incrm

/-- The words of the spec: a rational rounded toward zero to an integer, which is its floor when
it is non-negative and its ceiling when it is negative. -/
def truncTowardZero (q : ℚ) : ℤ :=
  if 0 ≤ q then ⌊q⌋ else ⌈q⌉

/-! ## Go run-time model -/

/-- Run-time panics of Go that the embedded code can raise. -/
inductive Panic
  | nilDereference
  | nilMapAssignment
  | indexOutOfRange
  | typeAssertion
  deriving DecidableEq, Repr

/-- A Go computation: either a value or a run-time panic. -/
abbrev Go (α : Type) := Except Panic α

/-- Reading through a pointer; a `nil` pointer panics. -/
def deref {α : Type} (p : Option α) : Go α :=
  match p with
  | some a => .ok a
  | none => .error .nilDereference

/-- Slice indexing `l[i]`; an index past the end panics. -/
def index {α : Type} (l : List α) (i : Nat) : Go α :=
  match l.get? i with
  | some a => .ok a
  | none => .error .indexOutOfRange

/-- Slice element assignment `l[i] = a`; an index past the end panics. -/
def setAt {α : Type} (l : List α) (i : Nat) (a : α) : Go (List α) :=
  if i < l.length then .ok (l.set i a) else .error .indexOutOfRange

/-- A Go map with string keys: `none` is the `nil` map, `some l` an allocated map whose entries
are the pairs of `l` (at most one per key). -/
abbrev GoMap (V : Type) := Option (List (String × V))

/-- Map read `m[k]`: `none` when the key is absent (Go then yields the zero value); reading a
`nil` map is allowed and finds nothing. -/
def GoMap.get {V : Type} (m : GoMap V) (k : String) : Option V :=
  match m with
  | none => none
  | some l => l.lookup k

/-- Map write `m[k] = v`: writing to a `nil` map panics. -/
def GoMap.set {V : Type} (m : GoMap V) (k : String) (v : V) : Go (GoMap V) :=
  match m with
  | none => .error .nilMapAssignment
  | some l =>
      if l.any (fun e => e.1 == k)
      then .ok (some (l.map fun e => if e.1 == k then (k, v) else e))
      else .ok (some (l ++ [(k, v)]))

/-! ## Data model -/

/-- Type tag `utils.MetaConcrete`. -/
def MetaConcrete : String := "*concrete"

/-- Type tag `utils.MetaAbstract`. -/
def MetaAbstract : String := "*abstract"

/-- Type tag `utils.MetaMonetary`, used by the test profiles. -/
def MetaMonetary : String := "*monetary"

/-- Type tag `utils.MetaVoice`, used by the test profiles. -/
def MetaVoice : String := "*voice"

/-- The record `utils.CostIncrement`; the decimals are held through pointers. -/
structure CostIncrement where
  FilterIDs : List String
  Increment : Option Big
  FixedFee : Option Big
  RecurrentFee : Option Big
  deriving DecidableEq, Repr

/-- The record `utils.UnitFactor`. -/
structure UnitFactor where
  FilterIDs : List String
  Factor : Option Big
  deriving DecidableEq, Repr

/-- The record `utils.Balance`.  The field `Typ` is the Go field `Type`; the values of `Opts`
are kept as text.  `Weight` is a float in Go and is embedded as the rational it denotes: the
weights that are not numbers or not finite, which the order of floats does not relate to the
others as a total order would, are outside the embedding, and no theorem below relies on the
order of the weights. -/
structure Balance where
  ID : String
  FilterIDs : List String
  Weight : ℚ
  Blocker : Bool
  Typ : String
  Opts : List (String × String)
  CostIncrements : List (Option CostIncrement)
  AttributeIDs : List String
  RateProfileIDs : List String
  UnitFactors : List (Option UnitFactor)
  Units : Option Big
  deriving DecidableEq, Repr

/-- The record `utils.ActivationInterval`, its two instants in nanoseconds. -/
structure ActivationInterval where
  ActivationTime : Int
  ExpiryTime : Int
  deriving DecidableEq, Repr

/-- The record `utils.AccountProfile`.  `Balances` is a Go map from balance ID to balance
pointer; it is given as its entries in the order in which the `range` loop of the constructor
visits them (Go does not fix that order, so every order is a possible input). -/
structure AccountProfile where
  Tenant : String
  ID : String
  FilterIDs : List String
  ActivationInterval : Option ActivationInterval
  Weight : ℚ
  Opts : List (String × String)
  Balances : List (String × Option Balance)
  ThresholdIDs : List String
  deriving DecidableEq, Repr

/-- Handle of the filter service (`engine.FilterS`), an external collaborator. -/
structure FilterS where
  ref : Nat
  deriving DecidableEq, Repr

/-- Handle of the connection manager (`engine.ConnManager`), an external collaborator. -/
structure ConnManager where
  ref : Nat
  deriving DecidableEq, Repr

/-- Header of the slice of concrete operators that an operator keeps.  The slice shares its
backing array with the `cncrtBlncs` field of the container, so its entries are those of the
container; the operator value records the length the slice had when it was handed over. -/
structure SliceHeader where
  len : Nat
  deriving DecidableEq, Repr

/-- Modelled from the spec: the concrete balance operator, whose declaration is not part of the
sources.  It holds a reference to its balance and to the list of all concrete operators, and
the service handles given at construction. -/
structure concreteBalance where
  blnCfg : Option Balance
  cncrtBlncs : SliceHeader
  fltrS : Option FilterS
  connMgr : Option ConnManager
  attrSConns : List String
  rateSConns : List String
  deriving DecidableEq, Repr

/-- Modelled from the spec: the abstract balance operator, whose declaration is not part of the
sources.  It holds its own balance and the concrete-operator list of the account. -/
structure abstractBalance where
  blnCfg : Option Balance
  cncrtBlncs : SliceHeader
  fltrS : Option FilterS
  connMgr : Option ConnManager
  attrSConns : List String
  rateSConns : List String
  deriving DecidableEq, Repr

/-- The interface `balanceOperator`, implemented by the two operator variants. -/
inductive balanceOperator
  | concrete (b : concreteBalance)
  | abstract (b : abstractBalance)
  deriving DecidableEq, Repr

/-- The record `accountBalances`.  An entry of `opers` is an interface value, which may be
`nil`. -/
structure accountBalances where
  blnCfgs : List (Option Balance)
  typIdx : GoMap (List Nat)
  cncrtBlncs : List (Option concreteBalance)
  opers : GoMap (Option balanceOperator)
  fltrS : Option FilterS
  connMgr : Option ConnManager
  attrSConns : List String
  rateSConns : List String
  deriving DecidableEq, Repr

/-! ## Operator construction -/

/-- Modelled from the spec: `newConcreteBalanceOperator`, not part of the sources, stores its
arguments in a fresh concrete operator and returns it as a `balanceOperator`. -/
def newConcreteBalanceOperator (blnCfg : Option Balance)
    (cncrtBlncs : List (Option concreteBalance))
    (fltrS : Option FilterS) (connMgr : Option ConnManager)
    (attrSConns rateSConns : List String) : balanceOperator :=
  .concrete
    { blnCfg := blnCfg, cncrtBlncs := { len := cncrtBlncs.length }, fltrS := fltrS,
      connMgr := connMgr, attrSConns := attrSConns, rateSConns := rateSConns }

/-- Modelled from the spec: `newAbstractBalanceOperator`, not part of the sources, stores its
arguments in a fresh abstract operator and returns it as a `balanceOperator`. -/
def newAbstractBalanceOperator (blnCfg : Option Balance)
    (cncrtBlncs : List (Option concreteBalance))
    (fltrS : Option FilterS) (connMgr : Option ConnManager)
    (attrSConns rateSConns : List String) : balanceOperator :=
  .abstract
    { blnCfg := blnCfg, cncrtBlncs := { len := cncrtBlncs.length }, fltrS := fltrS,
      connMgr := connMgr, attrSConns := attrSConns, rateSConns := rateSConns }

/-- The text built by `fmt.Errorf("unsupported balance type: <%s>", typ)`. -/
def unsupportedBalanceType (typ : String) : String :=
  "unsupported balance type: <" ++ typ ++ ">"

/-- Embedding of `newBalanceOperator`: a switch on the type tag of the balance, whose default
branch returns no operator and the unsupported-type error. -/
def newBalanceOperator (blncCfg : Option Balance)
    (cncrtBlncs : List (Option concreteBalance))
    (fltrS : Option FilterS) (connMgr : Option ConnManager)
    (attrSConns rateSConns : List String) :
    Go (Option balanceOperator × Option String) :=
  match deref blncCfg with
  | .error p => .error p
  | .ok cfg =>
      if cfg.Typ = MetaConcrete then
        .ok (some (newConcreteBalanceOperator blncCfg cncrtBlncs fltrS connMgr
          attrSConns rateSConns), none)
      else if cfg.Typ = MetaAbstract then
        .ok (some (newAbstractBalanceOperator blncCfg cncrtBlncs fltrS connMgr
          attrSConns rateSConns), none)
      else
        .ok (none, some (unsupportedBalanceType cfg.Typ))

/-! ## Container construction -/

/-- The temporary slice of the constructor: `make(utils.Balances, len(acnt.Balances))` allocates
as many `nil` entries as the profile has balances, and the `range` loop appends every balance of
the profile after them. -/
def collectBalances (acnt : AccountProfile) : List (Option Balance) :=
  acnt.Balances.foldl (fun blncs kv => blncs ++ [kv.2])
    (List.replicate acnt.Balances.length none)

/-- Reading every balance of a slice through its pointer, first to last. -/
def derefAll : List (Option Balance) → Go (List Balance)
  | [] => .ok []
  | p :: ps =>
      match deref p with
      | .error e => .error e
      | .ok b =>
          match derefAll ps with
          | .error e => .error e
          | .ok bs => .ok (b :: bs)

/-- Modelled from the spec: `utils.Balances.Sort`, not part of the sources, orders the slice by
`Weight` descending and keeps the original order on ties.  The comparison reads the weight
through the balance pointers, so on a slice of two or more entries every entry is read and a
`nil` entry panics; a shorter slice is left as it is without any comparison. -/
def Balances.Sort (blncs : List (Option Balance)) : Go (List (Option Balance)) :=
  if blncs.length < 2 then .ok blncs
  else
    match derefAll blncs with
    | .error e => .error e
    | .ok bs => .ok ((bs.insertionSort fun a b => b.Weight ≤ a.Weight).map some)

/-- The loop that populates `typIdx`: position `i` of the ordered list is appended to the entry
of the type of the balance at that position. -/
def populateTypIdx : Nat → List (Option Balance) → GoMap (List Nat) → Go (GoMap (List Nat))
  | _, [], typIdx => .ok typIdx
  | i, blnCfg :: rest, typIdx =>
      match deref blnCfg with
      | .error e => .error e
      | .ok cfg =>
          match typIdx.set cfg.Typ ((typIdx.get cfg.Typ).getD [] ++ [i]) with
          | .error e => .error e
          | .ok typIdx1 => populateTypIdx (i + 1) rest typIdx1

/-- The type assertion `.(*concreteBalance)` on an operator. -/
def assertConcrete (op : balanceOperator) : Go concreteBalance :=
  match op with
  | .concrete b => .ok b
  | .abstract _ => .error .typeAssertion

/-- The loop that populates `cncrtBlncs`, over the positions `typIdx[utils.MetaConcrete]`: the
`i`-th concrete operator is built from the balance at position `blncIdx`, stored at index `i`,
and registered in `opers` under the ID of its balance. -/
def populateCncrtBlncs (fltrS : Option FilterS) (connMgr : Option ConnManager)
    (attrSConns rateSConns : List String) :
    Nat → List Nat → accountBalances → Go accountBalances
  | _, [], acntBlncs => .ok acntBlncs
  | i, blncIdx :: rest, acntBlncs =>
      match index acntBlncs.blnCfgs blncIdx with
      | .error e => .error e
      | .ok blnCfg =>
          match assertConcrete (newConcreteBalanceOperator blnCfg acntBlncs.cncrtBlncs
              fltrS connMgr attrSConns rateSConns) with
          | .error e => .error e
          | .ok oper =>
              match setAt acntBlncs.cncrtBlncs i (some oper) with
              | .error e => .error e
              | .ok cncrtBlncs =>
                  match deref blnCfg with
                  | .error e => .error e
                  | .ok cfg =>
                      match acntBlncs.opers.set cfg.ID (some (.concrete oper)) with
                      | .error e => .error e
                      | .ok opers =>
                          populateCncrtBlncs fltrS connMgr attrSConns rateSConns (i + 1) rest
                            { acntBlncs with cncrtBlncs := cncrtBlncs, opers := opers }

/-- The loop that populates `opers` for the balances that are not concrete.  The two-value
assignment stores the operator returned by `newBalanceOperator` (which is `nil` on error) before
the error is tested; an error ends the constructor with the container built so far. -/
def populateOpers (fltrS : Option FilterS) (connMgr : Option ConnManager)
    (attrSConns rateSConns : List String) :
    List (Option Balance) → accountBalances → Go (accountBalances × Option String)
  | [], acntBlncs => .ok (acntBlncs, none)
  | blnCfg :: rest, acntBlncs =>
      match deref blnCfg with
      | .error e => .error e
      | .ok cfg =>
          if cfg.Typ = MetaConcrete then
            populateOpers fltrS connMgr attrSConns rateSConns rest acntBlncs
          else
            match newBalanceOperator blnCfg acntBlncs.cncrtBlncs fltrS connMgr
                attrSConns rateSConns with
            | .error e => .error e
            | .ok (bP, err) =>
                match acntBlncs.opers.set cfg.ID bP with
                | .error e => .error e
                | .ok opers =>
                    match err with
                    | some msg => .ok ({ acntBlncs with opers := opers }, some msg)
                    | none =>
                        populateOpers fltrS connMgr attrSConns rateSConns rest
                          { acntBlncs with opers := opers }

/-- Embedding of `newAccountBalances`.  The result is the container (the returned pointer is
never `nil`) with the error, or a panic.  The composite literal of the source names `blnCfgs`,
`connMgr`, `attrSConns` and `rateSConns` only, so the two maps start as `nil` maps, and
`cncrtBlncs` and `fltrS` as `nil`. -/
def newAccountBalances (acnt : Option AccountProfile)
    (fltrS : Option FilterS) (connMgr : Option ConnManager)
    (attrSConns rateSConns : List String) : Go (accountBalances × Option String) :=
  match deref acnt with
  | .error e => .error e
  | .ok prf =>
      match Balances.Sort (collectBalances prf) with
      | .error e => .error e
      | .ok blncs =>
          let acntBlncs : accountBalances :=
            { blnCfgs := blncs, typIdx := none, cncrtBlncs := [], opers := none,
              fltrS := none, connMgr := connMgr, attrSConns := attrSConns,
              rateSConns := rateSConns }
          match populateTypIdx 0 blncs acntBlncs.typIdx with
          | .error e => .error e
          | .ok typIdx =>
              let acntBlncs1 := { acntBlncs with typIdx := typIdx }
              let cncrtIdx := (acntBlncs1.typIdx.get MetaConcrete).getD []
              let acntBlncs2 :=
                { acntBlncs1 with cncrtBlncs := List.replicate cncrtIdx.length none }
              match populateCncrtBlncs fltrS connMgr attrSConns rateSConns 0 cncrtIdx
                  acntBlncs2 with
              | .error e => .error e
              | .ok acntBlncs3 =>
                  populateOpers fltrS connMgr attrSConns rateSConns acntBlncs3.blnCfgs
                    acntBlncs3

/-! ## Inputs taken from the tests -/

/-- The balance `MonetaryBalance` of the profile expected by `testAccountSGetAccountProfile`. -/
def monetaryBalance : Balance :=
  { ID := "MonetaryBalance", FilterIDs := [], Weight := 10, Blocker := false,
    Typ := MetaMonetary, Opts := [],
    CostIncrements :=
      [some { FilterIDs := ["fltr1", "fltr2"], Increment := some (13 / 10),
              FixedFee := some (23 / 10), RecurrentFee := some (33 / 10) }],
    AttributeIDs := ["attr1", "attr2"], RateProfileIDs := [],
    UnitFactors :=
      [some { FilterIDs := ["fltr1", "fltr2"], Factor := some 100 },
       some { FilterIDs := ["fltr3"], Factor := some 200 }],
    Units := some 14 }

/-- The balance `VoiceBalance` of the same profile. -/
def voiceBalance : Balance :=
  { ID := "VoiceBalance", FilterIDs := [], Weight := 10, Blocker := false,
    Typ := MetaVoice, Opts := [], CostIncrements := [], AttributeIDs := [],
    RateProfileIDs := [], UnitFactors := [], Units := some 3600000000000 }

/-- The account profile `cgrates.org:1001` expected by `testAccountSGetAccountProfile`. -/
def testProfile : AccountProfile :=
  { Tenant := "cgrates.org", ID := "1001", FilterIDs := [], ActivationInterval := none,
    Weight := 20, Opts := [],
    Balances := [("MonetaryBalance", some monetaryBalance), ("VoiceBalance", some voiceBalance)],
    ThresholdIDs := ["*none"] }

/-- A concrete balance whose only cost increment has a zero `Increment`. -/
def zeroIncrementBalance : Balance :=
  { ID := "ZeroIncrement", FilterIDs := [], Weight := 10, Blocker := false,
    Typ := MetaConcrete, Opts := [],
    CostIncrements :=
      [some { FilterIDs := [], Increment := some 0, FixedFee := none, RecurrentFee := none }],
    AttributeIDs := [], RateProfileIDs := [], UnitFactors := [], Units := some 14 }

/-- An abstract balance whose only cost increment has no `Increment` at all. -/
def absentIncrementBalance : Balance :=
  { ID := "AbsentIncrement", FilterIDs := [], Weight := 10, Blocker := false,
    Typ := MetaAbstract, Opts := [],
    CostIncrements :=
      [some { FilterIDs := [], Increment := none, FixedFee := none, RecurrentFee := none }],
    AttributeIDs := [], RateProfileIDs := [], UnitFactors := [], Units := none }

/-- The balance `VoiceBalance` of `TestCloneAccountProfile`, of type `*abstract`. -/
def abstractVoiceBalance : Balance :=
  { ID := "VoiceBalance", FilterIDs := ["*string:~*req.Account:1001"], Weight := 11 / 10,
    Blocker := true, Typ := MetaAbstract, Opts := [("Destination", "10")],
    CostIncrements :=
      [some { FilterIDs := ["*string:~*req.Account:1001"], Increment := some (1 / 10),
              FixedFee := some (75 / 10), RecurrentFee := some (20 / 10) }],
    AttributeIDs := ["attr1", "attr2"], RateProfileIDs := [],
    UnitFactors := [some { FilterIDs := ["*string:~*req.Account:1001"], Factor := some (20 / 100) }],
    Units := some (125 / 1000) }

/-- The account profile `cgrates.org:Profile_id1` of `TestCloneAccountProfile`: one balance, of
type `*abstract`. -/
def cloneTestProfile : AccountProfile :=
  { Tenant := "cgrates.org", ID := "Profile_id1", FilterIDs := ["*string:~*req.Account:1001"],
    ActivationInterval :=
      some { ActivationTime := 1595325600000000000, ExpiryTime := 1595412000000000000 },
    Weight := 24 / 10, Opts := [("Destination", "10")],
    Balances := [("VoiceBalance", some abstractVoiceBalance)],
    ThresholdIDs := ["*none"] }

/-- The account profile `cgrates.org:test_ID1` expected by `TestAccountProfileAsAccountProfile`:
one abstract balance with no cost increment and zero units. -/
def apiTestProfile : AccountProfile :=
  { Tenant := "cgrates.org", ID := "test_ID1", FilterIDs := [], ActivationInterval := none,
    Weight := 10, Opts := [],
    Balances :=
      [("VoiceBalance",
        some { ID := "VoiceBalance", FilterIDs := ["*string:~*req.Account:1001"],
               Weight := 11 / 10, Blocker := true, Typ := MetaAbstract,
               Opts := [("Destination", "10")], CostIncrements := [], AttributeIDs := [],
               RateProfileIDs := [], UnitFactors := [], Units := some 0 })],
    ThresholdIDs := [] }

/-- The account profile of `TestTenantIDAccountProfile`, which has no balance. -/
def emptyProfile : AccountProfile :=
  { Tenant := "cgrates.org", ID := "test_ID1", FilterIDs := [], ActivationInterval := none,
    Weight := 0, Opts := [], Balances := [], ThresholdIDs := [] }

/-- The balance `MonetaryBalance` of the test profile, given the supported type `*concrete`. -/
def concreteMonetaryBalance : Balance :=
  { monetaryBalance with Typ := MetaConcrete }

/-- A profile whose balances all have a supported type: the abstract `VoiceBalance` of weight
11/10 and the concrete `MonetaryBalance` of weight 10, visited in that order. -/
def supportedProfile : AccountProfile :=
  { Tenant := "cgrates.org", ID := "1001", FilterIDs := [], ActivationInterval := none,
    Weight := 20, Opts := [],
    Balances :=
      [("VoiceBalance", some abstractVoiceBalance),
       ("MonetaryBalance", some concreteMonetaryBalance)],
    ThresholdIDs := ["*none"] }

/-- The balance sorted alone by `TestAPIBalanceAsBalance`; its type is not set. -/
def apiBalance : Balance :=
  { ID := "VoiceBalance", FilterIDs := [], Weight := 10, Blocker := false, Typ := "",
    Opts := [],
    CostIncrements :=
      [some { FilterIDs := ["*string:~*req.Account:1001"], Increment := some 1,
              FixedFee := some 10, RecurrentFee := some 35 }],
    AttributeIDs := [], RateProfileIDs := [],
    UnitFactors := [some { FilterIDs := ["*string:~*req.Account:1001"], Factor := some 20 }],
    Units := some 0 }

/-- The abstract `VoiceBalance` with the weight 10 of the tie scenario of the spec. -/
def tieVoiceBalance : Balance :=
  { abstractVoiceBalance with Weight := 10 }

/-- The profile of the tie scenario of the spec: `VoiceBalance` and `MonetaryBalance`, both of
weight 10 and of a supported type, `VoiceBalance` first. -/
def tieProfile : AccountProfile :=
  { Tenant := "cgrates.org", ID := "1001", FilterIDs := [], ActivationInterval := none,
    Weight := 20, Opts := [],
    Balances :=
      [("VoiceBalance", some tieVoiceBalance),
       ("MonetaryBalance", some concreteMonetaryBalance)],
    ThresholdIDs := ["*none"] }

/-- The profile of the tie scenario with its two balances visited in the other order. -/
def tieProfileReversed : AccountProfile :=
  { tieProfile with
    Balances :=
      [("MonetaryBalance", some concreteMonetaryBalance),
       ("VoiceBalance", some tieVoiceBalance)] }

/-! ## Words of the spec on the container -/

/-- The container the constructor returns when no loop body runs: the literal of the source
over an empty balance list. -/
def emptyContainer (connMgr : Option ConnManager) (attrSConns rateSConns : List String) :
    accountBalances :=
  { blnCfgs := [], typIdx := none, cncrtBlncs := [], opers := none, fltrS := none,
    connMgr := connMgr, attrSConns := attrSConns, rateSConns := rateSConns }

/-- Whether a balance pointer refers to a balance of type `t`. -/
def hasType (t : String) (p : Option Balance) : Bool :=
  match p with
  | some cfg => cfg.Typ == t
  | none => false

/-- The words of the spec on the type index: the positions `i` of the ordered balance list, in
increasing order, whose balance has type `t`. -/
def positionsOfType (blnCfgs : List (Option Balance)) (t : String) : List Nat :=
  (List.range blnCfgs.length).filter fun i => hasType t ((blnCfgs.get? i).getD none)

/-- Modelled from the spec: `TenantID` of `utils.AccountProfile`, not part of the sources.  The
spec gives the identity of a profile as `Tenant:ID`, the two fields joined by a colon. -/
def AccountProfile.TenantID (ap : AccountProfile) : String :=
  ":".intercalate [ap.Tenant, ap.ID]

/-- Positions, counted from `i`, of the balances of type `t` in a balance list. -/
def positionsFrom (t : String) : Nat → List (Option Balance) → List Nat
  | _, [] => []
  | i, p :: rest =>
      if hasType t p then i :: positionsFrom t (i + 1) rest else positionsFrom t (i + 1) rest

/-- The concrete operator that the loop over `cncrtBlncs` builds for position `blncIdx` of the
balance list, when the concrete-operator slice has length `n`. -/
def cncrtOpAt (blnCfgs : List (Option Balance)) (n : Nat)
    (fltrS : Option FilterS) (connMgr : Option ConnManager)
    (attrSConns rateSConns : List String) (blncIdx : Nat) : concreteBalance :=
  { blnCfg := (blnCfgs.get? blncIdx).getD none, cncrtBlncs := { len := n }, fltrS := fltrS,
    connMgr := connMgr, attrSConns := attrSConns, rateSConns := rateSConns }

/-- The body of `newAccountBalances` after the composite literal: the three loops, run on a
given container. -/
def populate (fltrS : Option FilterS) (connMgr : Option ConnManager)
    (attrSConns rateSConns : List String) (acntBlncs : accountBalances) :
    Go (accountBalances × Option String) :=
  match populateTypIdx 0 acntBlncs.blnCfgs acntBlncs.typIdx with
  | .error e => .error e
  | .ok typIdx =>
      let acntBlncs1 := { acntBlncs with typIdx := typIdx }
      let cncrtIdx := (acntBlncs1.typIdx.get MetaConcrete).getD []
      let acntBlncs2 :=
        { acntBlncs1 with cncrtBlncs := List.replicate cncrtIdx.length none }
      match populateCncrtBlncs fltrS connMgr attrSConns rateSConns 0 cncrtIdx
          acntBlncs2 with
      | .error e => .error e
      | .ok acntBlncs3 =>
          populateOpers fltrS connMgr attrSConns rateSConns acntBlncs3.blnCfgs
            acntBlncs3

/-! ## Increment rounding: auxiliary facts -/

theorem roundInt_toZero (q : ℚ) : roundInt .ToZero q = truncTowardZero q := by
  have hd : (0 : ℤ) < q.den := by exact_mod_cast q.den_pos
  unfold roundInt truncTowardZero
  by_cases h : 0 ≤ q
  · have hn : 0 ≤ q.num := Rat.num_nonneg.mpr h
    simp only [h, if_true]
    rw [Int.tdiv_eq_ediv hn hd.le, Rat.floor_def]
  · have hn : q.num < 0 := Rat.num_neg.mpr (not_le.mp h)
    simp only [h, if_false]
    have hc : ⌈q⌉ = -⌊-q⌋ := by
      rw [Int.floor_neg, neg_neg]
    rw [hc, Rat.floor_def, Rat.num_neg_eq_neg_num, Rat.den_neg_eq_den]
    have h1 : Int.tdiv q.num q.den = -Int.tdiv (-q.num) q.den := by
      rw [Int.neg_tdiv, neg_neg]
    rw [h1, Int.tdiv_eq_ediv (by omega) hd.le]

theorem roundedUsageWithIncrements_eq (usage incrm : Big) (h : incrm ≠ 0) :
    roundedUsageWithIncrements usage incrm
      = some ((truncTowardZero (usage / incrm) : ℚ) * incrm) := by
  simp [roundedUsageWithIncrements, Quo, RoundToInt, MultiplyBig, h, roundInt_toZero]

theorem truncTowardZero_intCast (n : ℤ) : truncTowardZero (n : ℚ) = n := by
  unfold truncTowardZero
  split <;> simp

theorem truncTowardZero_mono {a b : ℚ} (h : a ≤ b) : truncTowardZero a ≤ truncTowardZero b := by
  unfold truncTowardZero
  by_cases ha : 0 ≤ a
  · have hb : 0 ≤ b := ha.trans h
    simp only [ha, hb, if_true]
    exact Int.floor_mono h
  · by_cases hb : 0 ≤ b
    · simp only [ha, hb, if_true, if_false]
      have h1 : ⌈a⌉ ≤ 0 := Int.ceil_le.mpr (by exact_mod_cast (not_le.mp ha).le)
      have h2 : (0 : ℤ) ≤ ⌊b⌋ := Int.floor_nonneg.mpr hb
      exact h1.trans h2
    · simp only [ha, hb, if_false]
      exact Int.ceil_mono h

theorem truncTowardZero_abs_le (q : ℚ) : |(truncTowardZero q : ℚ)| ≤ |q| := by
  unfold truncTowardZero
  by_cases h : 0 ≤ q
  · simp only [h, if_true]
    have h1 : (0 : ℚ) ≤ ⌊q⌋ := by exact_mod_cast Int.floor_nonneg.mpr h
    rw [abs_of_nonneg h1, abs_of_nonneg h]
    exact Int.floor_le q
  · simp only [h, if_false]
    have hq : q < 0 := not_le.mp h
    have h1 : ((⌈q⌉ : ℤ) : ℚ) ≤ 0 := by
      exact_mod_cast Int.ceil_le.mpr (by exact_mod_cast hq.le)
    rw [abs_of_nonpos h1, abs_of_neg hq]
    exact neg_le_neg (Int.le_ceil q)

theorem truncTowardZero_abs_gt (q : ℚ) : |q| - |(truncTowardZero q : ℚ)| < 1 := by
  unfold truncTowardZero
  by_cases h : 0 ≤ q
  · simp only [h, if_true]
    have h1 : (0 : ℚ) ≤ ⌊q⌋ := by exact_mod_cast Int.floor_nonneg.mpr h
    rw [abs_of_nonneg h1, abs_of_nonneg h]
    have := Int.lt_floor_add_one q
    linarith
  · simp only [h, if_false]
    have hq : q < 0 := not_le.mp h
    have h1 : ((⌈q⌉ : ℤ) : ℚ) ≤ 0 := by
      exact_mod_cast Int.ceil_le.mpr (by exact_mod_cast hq.le)
    rw [abs_of_nonpos h1, abs_of_neg hq]
    have := Int.ceil_lt_add_one q
    linarith

theorem truncTowardZero_sign (q : ℚ) : 0 ≤ (truncTowardZero q : ℚ) * q := by
  unfold truncTowardZero
  by_cases h : 0 ≤ q
  · simp only [h, if_true]
    have h1 : (0 : ℚ) ≤ ⌊q⌋ := by exact_mod_cast Int.floor_nonneg.mpr h
    exact mul_nonneg h1 h
  · simp only [h, if_false]
    have hq : q < 0 := not_le.mp h
    have h1 : ((⌈q⌉ : ℤ) : ℚ) ≤ 0 := by
      exact_mod_cast Int.ceil_le.mpr (by exact_mod_cast hq.le)
    exact mul_nonneg_of_nonpos_of_nonpos h1 hq.le

/-! ## Operator construction: auxiliary facts -/

theorem newBalanceOperator_concrete (cfg : Balance) (h : cfg.Typ = MetaConcrete)
    (cncrtBlncs : List (Option concreteBalance))
    (fltrS : Option FilterS) (connMgr : Option ConnManager)
    (attrSConns rateSConns : List String) :
    newBalanceOperator (some cfg) cncrtBlncs fltrS connMgr attrSConns rateSConns
      = .ok (some (newConcreteBalanceOperator (some cfg) cncrtBlncs fltrS connMgr
          attrSConns rateSConns), none) := by
  simp [newBalanceOperator, deref, h]

theorem newBalanceOperator_abstract (cfg : Balance) (h : cfg.Typ = MetaAbstract)
    (cncrtBlncs : List (Option concreteBalance))
    (fltrS : Option FilterS) (connMgr : Option ConnManager)
    (attrSConns rateSConns : List String) :
    newBalanceOperator (some cfg) cncrtBlncs fltrS connMgr attrSConns rateSConns
      = .ok (some (newAbstractBalanceOperator (some cfg) cncrtBlncs fltrS connMgr
          attrSConns rateSConns), none) := by
  have hne : MetaAbstract ≠ MetaConcrete := by decide
  simp [newBalanceOperator, deref, h, hne]

theorem newBalanceOperator_unsupported (cfg : Balance)
    (hc : cfg.Typ ≠ MetaConcrete) (ha : cfg.Typ ≠ MetaAbstract)
    (cncrtBlncs : List (Option concreteBalance))
    (fltrS : Option FilterS) (connMgr : Option ConnManager)
    (attrSConns rateSConns : List String) :
    newBalanceOperator (some cfg) cncrtBlncs fltrS connMgr attrSConns rateSConns
      = .ok (none, some (unsupportedBalanceType cfg.Typ)) := by
  simp [newBalanceOperator, deref, hc, ha]

/-! ## Container construction: auxiliary facts -/

theorem collectBalances_eq (acnt : AccountProfile) :
    collectBalances acnt
      = List.replicate acnt.Balances.length none ++ acnt.Balances.map Prod.snd := by
  unfold collectBalances
  generalize List.replicate acnt.Balances.length (none : Option Balance) = init
  induction acnt.Balances generalizing init with
  | nil => simp
  | cons kv rest ih => simp [List.foldl_cons, ih]

theorem populateTypIdx_nil_map (i : Nat) (blnCfg : Option Balance)
    (rest : List (Option Balance)) :
    ∃ p, populateTypIdx i (blnCfg :: rest) none = .error p := by
  cases blnCfg with
  | none => exact ⟨_, rfl⟩
  | some cfg => exact ⟨_, rfl⟩

theorem newAccountBalances_nonempty (prf : AccountProfile) (h : prf.Balances ≠ [])
    (fltrS : Option FilterS) (connMgr : Option ConnManager)
    (attrSConns rateSConns : List String) :
    newAccountBalances (some prf) fltrS connMgr attrSConns rateSConns
      = .error .nilDereference := by
  obtain ⟨kv, rest, hb⟩ := List.exists_cons_of_ne_nil h
  have hc : collectBalances prf
      = none :: (List.replicate rest.length none ++ (kv :: rest).map Prod.snd) := by
    rw [collectBalances_eq, hb]
    simp [List.replicate_succ]
  have hs : Balances.Sort (collectBalances prf) = .error .nilDereference := by
    rw [hc]
    have hl : ¬ (rest.length + (rest.length + 1) + 1 < 2) := by omega
    simp [Balances.Sort, derefAll, deref, hl]
  simp [newAccountBalances, deref, hs]

/-! ## Increment rounding: the claims -/

/-- C1: for every usage and every non-zero increment, the rounded usage is `q × increment`,
where `q` is the exact quotient `usage / increment` rounded toward zero to an integer: `q` is not
larger in magnitude than the quotient, differs from it by less than one, and does not have the
opposite sign. -/
theorem roundedUsage_truncates (usage incrm : Big) (h : incrm ≠ 0) :
    roundedUsageWithIncrements usage incrm
        = some ((truncTowardZero (usage / incrm) : ℚ) * incrm)
      ∧ |(truncTowardZero (usage / incrm) : ℚ)| ≤ |usage / incrm|
      ∧ |usage / incrm| - |(truncTowardZero (usage / incrm) : ℚ)| < 1
      ∧ 0 ≤ (truncTowardZero (usage / incrm) : ℚ) * (usage / incrm) :=
  ⟨roundedUsageWithIncrements_eq usage incrm h, truncTowardZero_abs_le _,
    truncTowardZero_abs_gt _, truncTowardZero_sign _⟩

/-- Witness of C1 at usage 7 and increment 2. -/
theorem roundedUsage_truncates_witness :
    (2 : Big) ≠ 0 ∧
      (roundedUsageWithIncrements 7 2 = some ((truncTowardZero (7 / 2) : ℚ) * 2)
        ∧ |(truncTowardZero (7 / 2) : ℚ)| ≤ |(7 : Big) / 2|
        ∧ |(7 : Big) / 2| - |(truncTowardZero (7 / 2) : ℚ)| < 1
        ∧ 0 ≤ (truncTowardZero (7 / 2) : ℚ) * (7 / 2)) :=
  ⟨by norm_num, roundedUsage_truncates 7 2 (by norm_num)⟩

/-- C2, as stated, fails: for the usage -1 and the increment 2 the rounded usage is not
`floor(usage / increment) × increment` (which is -2). -/
theorem roundedUsage_floor_counterexample :
    roundedUsageWithIncrements (-1) 2 ≠ some ((⌊(-1 : ℚ) / 2⌋ : ℚ) * 2) := by
  have hf : ⌊(-1 : ℚ) / 2⌋ = -1 := by
    rw [Int.floor_eq_iff]
    constructor <;> norm_num
  have hc : ⌈(-1 : ℚ) / 2⌉ = 0 := by
    rw [Int.ceil_eq_iff]
    constructor <;> norm_num
  rw [roundedUsageWithIncrements_eq _ _ (by norm_num), hf]
  have ht : truncTowardZero ((-1 : ℚ) / 2) = 0 := by
    unfold truncTowardZero
    rw [if_neg (by norm_num), hc]
  rw [ht]
  norm_num

/-- C2, amended: for every positive increment, the rounded usage is
`floor(usage / increment) × increment` when the usage is non-negative, and
`ceil(usage / increment) × increment` when the usage is negative. -/
theorem roundedUsage_floor_or_ceil (usage incrm : Big) (hi : 0 < incrm) :
    roundedUsageWithIncrements usage incrm
      = some (((if 0 ≤ usage then ⌊usage / incrm⌋ else ⌈usage / incrm⌉ : ℤ) : ℚ) * incrm) := by
  rw [roundedUsageWithIncrements_eq usage incrm hi.ne']
  unfold truncTowardZero
  by_cases hu : 0 ≤ usage
  · rw [if_pos (div_nonneg hu hi.le), if_pos hu]
  · rw [if_neg (not_le.mpr (div_neg_of_neg_of_pos (not_le.mp hu) hi)), if_neg hu]

/-- Witness of the amended C2 at usage -1 and increment 2. -/
theorem roundedUsage_floor_or_ceil_witness :
    (0 : Big) < 2 ∧
      roundedUsageWithIncrements (-1) 2
        = some (((if (0 : Big) ≤ -1 then ⌊(-1 : Big) / 2⌋ else ⌈(-1 : Big) / 2⌉ : ℤ) : ℚ) * 2) :=
  ⟨by norm_num, roundedUsage_floor_or_ceil (-1) 2 (by norm_num)⟩

/-- C3: for every usage ≥ 0 and every increment > 0 the rounding returns a value, and the
deferred part `usage − rounded` is non-negative and smaller than one increment. -/
theorem roundedUsage_deferred_bounds (usage incrm : Big) (hu : 0 ≤ usage) (hi : 0 < incrm) :
    ∃ r, roundedUsageWithIncrements usage incrm = some r
      ∧ 0 ≤ usage - r ∧ usage - r < incrm := by
  refine ⟨_, roundedUsageWithIncrements_eq usage incrm hi.ne', ?_, ?_⟩
  · unfold truncTowardZero
    rw [if_pos (div_nonneg hu hi.le)]
    have h1 : (⌊usage / incrm⌋ : ℚ) ≤ usage / incrm := Int.floor_le _
    have h2 : (⌊usage / incrm⌋ : ℚ) * incrm ≤ usage := (le_div_iff₀ hi).mp h1
    linarith
  · unfold truncTowardZero
    rw [if_pos (div_nonneg hu hi.le)]
    have h1 : usage / incrm < (⌊usage / incrm⌋ : ℚ) + 1 := Int.lt_floor_add_one _
    have h2 : usage < ((⌊usage / incrm⌋ : ℚ) + 1) * incrm := (div_lt_iff₀ hi).mp h1
    linarith

/-- Witness of C3 at usage 7 and increment 2. -/
theorem roundedUsage_deferred_bounds_witness :
    (0 : Big) ≤ 7 ∧ (0 : Big) < 2 ∧
      ∃ r, roundedUsageWithIncrements 7 2 = some r ∧ 0 ≤ 7 - r ∧ 7 - r < 2 :=
  ⟨by norm_num, by norm_num, roundedUsage_deferred_bounds 7 2 (by norm_num) (by norm_num)⟩


/-- C4, as stated, fails: rounding the usage 200 with the increment 1.3 does not yield 199.9. -/
theorem roundedUsage_200_counterexample :
    roundedUsageWithIncrements 200 (13 / 10) ≠ some (1999 / 10) := by
  have ht : truncTowardZero ((200 : ℚ) / (13 / 10)) = 153 := by
    unfold truncTowardZero
    rw [if_pos (by norm_num), Int.floor_eq_iff]
    constructor <;> norm_num
  rw [roundedUsageWithIncrements_eq _ _ (by norm_num), ht]
  norm_num

/-- C4, amended: rounding the usage 200 with the increment 1.3 keeps 153 whole increments and
yields 198.9, which is 153 × 1.3. -/
theorem roundedUsage_200_by_13_tenths :
    RoundToInt { RoundingMode := .ToZero } (Quo { RoundingMode := .ToZero } 200 (13 / 10))
        = some 153
      ∧ roundedUsageWithIncrements 200 (13 / 10) = some (1989 / 10)
      ∧ (1989 / 10 : Big) = 153 * (13 / 10) := by
  have ht : truncTowardZero ((200 : ℚ) / (13 / 10)) = 153 := by
    unfold truncTowardZero
    rw [if_pos (by norm_num), Int.floor_eq_iff]
    constructor <;> norm_num
  refine ⟨?_, ?_, by norm_num⟩
  · have hq : Quo { RoundingMode := .ToZero } 200 (13 / 10) = some ((200 : ℚ) / (13 / 10)) := by
      unfold Quo
      rw [if_neg (by norm_num)]
    rw [hq]
    simp only [RoundToInt, Option.map_some', roundInt_toZero, ht]
    norm_num
  · rw [roundedUsageWithIncrements_eq _ _ (by norm_num), ht]
    norm_num

/-- C5: increment rounding is idempotent: for every usage and every non-zero increment the
rounding returns a value, and rounding that value again returns it unchanged. -/
theorem roundedUsage_idempotent (usage incrm : Big) (h : incrm ≠ 0) :
    ∃ r, roundedUsageWithIncrements usage incrm = some r
      ∧ roundedUsageWithIncrements r incrm = some r := by
  refine ⟨_, roundedUsageWithIncrements_eq usage incrm h, ?_⟩
  rw [roundedUsageWithIncrements_eq _ incrm h, mul_div_assoc, div_self h, mul_one,
    truncTowardZero_intCast]

/-- Witness of C5 at usage 7 and increment 2. -/
theorem roundedUsage_idempotent_witness :
    (2 : Big) ≠ 0 ∧
      ∃ r, roundedUsageWithIncrements 7 2 = some r ∧ roundedUsageWithIncrements r 2 = some r :=
  ⟨by norm_num, roundedUsage_idempotent 7 2 (by norm_num)⟩

/-- C6: increment rounding is monotonic: for every increment > 0 and all usages `u1 ≤ u2`, both
roundings return a value and the rounding of `u1` is at most the rounding of `u2`. -/
theorem roundedUsage_monotone (u1 u2 incrm : Big) (hi : 0 < incrm) (h : u1 ≤ u2) :
    ∃ r1 r2, roundedUsageWithIncrements u1 incrm = some r1
      ∧ roundedUsageWithIncrements u2 incrm = some r2 ∧ r1 ≤ r2 := by
  refine ⟨_, _, roundedUsageWithIncrements_eq u1 incrm hi.ne',
    roundedUsageWithIncrements_eq u2 incrm hi.ne', ?_⟩
  have hq : u1 / incrm ≤ u2 / incrm := div_le_div_of_nonneg_right h hi.le
  have ht : ((truncTowardZero (u1 / incrm) : ℤ) : ℚ) ≤ (truncTowardZero (u2 / incrm) : ℤ) := by
    exact_mod_cast truncTowardZero_mono hq
  exact mul_le_mul_of_nonneg_right ht hi.le

/-- Witness of C6 at the usages -3 and 7 and the increment 2. -/
theorem roundedUsage_monotone_witness :
    (0 : Big) < 2 ∧ (-3 : Big) ≤ 7 ∧
      ∃ r1 r2, roundedUsageWithIncrements (-3) 2 = some r1
        ∧ roundedUsageWithIncrements 7 2 = some r2 ∧ r1 ≤ r2 :=
  ⟨by norm_num, by norm_num, roundedUsage_monotone (-3) 7 2 (by norm_num) (by norm_num)⟩

/-- C7: for every natural number `k` and every increment > 0, a usage of `k` increments is
charged in full, and rounding it at once equals `k` times the rounding of a single increment. -/
theorem roundedUsage_whole_increments (k : ℕ) (incrm : Big) (hi : 0 < incrm) :
    roundedUsageWithIncrements ((k : ℚ) * incrm) incrm = some ((k : ℚ) * incrm)
      ∧ roundedUsageWithIncrements incrm incrm = some incrm
      ∧ (roundedUsageWithIncrements incrm incrm).map (fun r => (k : ℚ) * r)
          = roundedUsageWithIncrements ((k : ℚ) * incrm) incrm := by
  have h := hi.ne'
  have hk : roundedUsageWithIncrements ((k : ℚ) * incrm) incrm = some ((k : ℚ) * incrm) := by
    rw [roundedUsageWithIncrements_eq _ incrm h, mul_div_assoc, div_self h, mul_one]
    have hc : ((k : ℕ) : ℚ) = (((k : ℤ) : ℤ) : ℚ) := by norm_cast
    rw [hc, truncTowardZero_intCast]
  have h1 : roundedUsageWithIncrements incrm incrm = some incrm := by
    rw [roundedUsageWithIncrements_eq _ incrm h, div_self h]
    have hc : (1 : ℚ) = ((1 : ℤ) : ℚ) := by norm_cast
    rw [hc, truncTowardZero_intCast]
    norm_num
  refine ⟨hk, h1, ?_⟩
  rw [h1, hk]
  rfl

/-- Witness of C7 for 3 increments of 13/10. -/
theorem roundedUsage_whole_increments_witness :
    (0 : Big) < 13 / 10 ∧
      (roundedUsageWithIncrements (((3 : ℕ) : ℚ) * (13 / 10)) (13 / 10)
          = some (((3 : ℕ) : ℚ) * (13 / 10))
        ∧ roundedUsageWithIncrements (13 / 10) (13 / 10) = some (13 / 10)
        ∧ (roundedUsageWithIncrements (13 / 10) (13 / 10)).map (fun r => ((3 : ℕ) : ℚ) * r)
            = roundedUsageWithIncrements (((3 : ℕ) : ℚ) * (13 / 10)) (13 / 10)) :=
  ⟨by norm_num, roundedUsage_whole_increments 3 (13 / 10) (by norm_num)⟩

/-! ## Operator construction: the claims -/

/-- C8: `newBalanceOperator` fails exactly on unsupported types: on every balance configuration
it returns without panic; it returns the error "unsupported balance type: <T>" and no operator
if and only if the type is neither the concrete nor the abstract tag; for the concrete tag it
returns a concrete operator and for the abstract tag an abstract operator, each with no error. -/
theorem newBalanceOperator_fails_iff_unsupported (cfg : Balance)
    (cncrtBlncs : List (Option concreteBalance))
    (fltrS : Option FilterS) (connMgr : Option ConnManager)
    (attrSConns rateSConns : List String) :
    ∃ bP err,
      newBalanceOperator (some cfg) cncrtBlncs fltrS connMgr attrSConns rateSConns
          = .ok (bP, err)
        ∧ ((bP = none ∧ err = some ("unsupported balance type: <" ++ cfg.Typ ++ ">"))
            ↔ (cfg.Typ ≠ MetaConcrete ∧ cfg.Typ ≠ MetaAbstract))
        ∧ (err ≠ none ↔ (cfg.Typ ≠ MetaConcrete ∧ cfg.Typ ≠ MetaAbstract))
        ∧ (cfg.Typ = MetaConcrete → (∃ b, bP = some (.concrete b)) ∧ err = none)
        ∧ (cfg.Typ = MetaAbstract → (∃ b, bP = some (.abstract b)) ∧ err = none) := by
  have hne : MetaConcrete ≠ MetaAbstract := by decide
  by_cases hc : cfg.Typ = MetaConcrete
  · refine ⟨_, none, newBalanceOperator_concrete cfg hc _ _ _ _ _, ?_⟩
    simp [hc, hne, newConcreteBalanceOperator]
  · by_cases ha : cfg.Typ = MetaAbstract
    · refine ⟨_, none, newBalanceOperator_abstract cfg ha _ _ _ _ _, ?_⟩
      simp [ha, hne.symm, newAbstractBalanceOperator]
    · refine ⟨none, _, newBalanceOperator_unsupported cfg hc ha _ _ _ _ _, ?_⟩
      simp [hc, ha, unsupportedBalanceType]

/-- C9 at the failing input: on the test profile `cgrates.org:1001`, whose two balances have the
unsupported types `*monetary` and `*voice`, `newAccountBalances` does not return the error: it
panics with a nil pointer dereference, the temporary slice holding two `nil` entries in front of
the two balances.  The loop over `typIdx` would panic on the two balances alone as well, the map
it writes to being `nil`. -/
theorem newAccountBalances_testProfile_panics (fltrS : Option FilterS)
    (connMgr : Option ConnManager) (attrSConns rateSConns : List String) :
    collectBalances testProfile = [none, none, some monetaryBalance, some voiceBalance]
      ∧ newAccountBalances (some testProfile) fltrS connMgr attrSConns rateSConns
          = .error .nilDereference
      ∧ populateTypIdx 0 [some monetaryBalance, some voiceBalance] none
          = .error .nilMapAssignment := by
  refine ⟨rfl, ?_, rfl⟩
  exact newAccountBalances_nonempty testProfile (by simp [testProfile]) fltrS connMgr
    attrSConns rateSConns

/-- C10, as stated, fails: a concrete balance whose cost increment has a zero `Increment` and an
abstract balance whose cost increment has no `Increment` both get an operator and no error. -/
theorem newBalanceOperator_malformed_increment_counterexample :
    newBalanceOperator (some zeroIncrementBalance) [] none none [] []
        = .ok (some (.concrete
            { blnCfg := some zeroIncrementBalance, cncrtBlncs := { len := 0 }, fltrS := none,
              connMgr := none, attrSConns := [], rateSConns := [] }), none)
      ∧ newBalanceOperator (some absentIncrementBalance) [] none none [] []
        = .ok (some (.abstract
            { blnCfg := some absentIncrementBalance, cncrtBlncs := { len := 0 }, fltrS := none,
              connMgr := none, attrSConns := [], rateSConns := [] }), none) :=
  ⟨rfl, rfl⟩

/-- C10, amended: operator construction does not examine the cost increments: for every balance
configuration of a supported type (concrete or abstract) and whatever cost increments it is
given, `newBalanceOperator` returns an operator and no error. -/
theorem newBalanceOperator_ignores_costIncrements (cfg : Balance)
    (h : cfg.Typ = MetaConcrete ∨ cfg.Typ = MetaAbstract)
    (incs : List (Option CostIncrement))
    (cncrtBlncs : List (Option concreteBalance))
    (fltrS : Option FilterS) (connMgr : Option ConnManager)
    (attrSConns rateSConns : List String) :
    ∃ op, newBalanceOperator (some { cfg with CostIncrements := incs }) cncrtBlncs fltrS connMgr
        attrSConns rateSConns = .ok (some op, none) := by
  rcases h with h | h
  · exact ⟨_, newBalanceOperator_concrete { cfg with CostIncrements := incs } h _ _ _ _ _⟩
  · exact ⟨_, newBalanceOperator_abstract { cfg with CostIncrements := incs } h _ _ _ _ _⟩

/-- Witness of the amended C10 at the concrete balance with a zero increment. -/
theorem newBalanceOperator_ignores_costIncrements_witness :
    (zeroIncrementBalance.Typ = MetaConcrete ∨ zeroIncrementBalance.Typ = MetaAbstract) ∧
      ∃ op, newBalanceOperator
          (some { zeroIncrementBalance with
            CostIncrements := [some { FilterIDs := [], Increment := some 0, FixedFee := none,
                                      RecurrentFee := none }] })
          [] none none [] [] = .ok (some op, none) :=
  ⟨Or.inl rfl, newBalanceOperator_ignores_costIncrements zeroIncrementBalance (Or.inl rfl)
    [some { FilterIDs := [], Increment := some 0, FixedFee := none, RecurrentFee := none }]
    [] none none [] []⟩

/-! ## Container construction: the claims -/

theorem newAccountBalances_empty (prf : AccountProfile) (h : prf.Balances = [])
    (fltrS : Option FilterS) (connMgr : Option ConnManager)
    (attrSConns rateSConns : List String) :
    newAccountBalances (some prf) fltrS connMgr attrSConns rateSConns
      = .ok (emptyContainer connMgr attrSConns rateSConns, none) := by
  have hc : collectBalances prf = [] := by
    rw [collectBalances_eq, h]
    rfl
  simp [newAccountBalances, deref, hc, Balances.Sort, populateTypIdx, GoMap.get,
    populateCncrtBlncs, populateOpers, emptyContainer]

theorem newAccountBalances_ok (prf : AccountProfile)
    (fltrS : Option FilterS) (connMgr : Option ConnManager)
    (attrSConns rateSConns : List String) (c : accountBalances) (err : Option String)
    (h : newAccountBalances (some prf) fltrS connMgr attrSConns rateSConns = .ok (c, err)) :
    prf.Balances = [] ∧ c = emptyContainer connMgr attrSConns rateSConns ∧ err = none := by
  by_cases hb : prf.Balances = []
  · rw [newAccountBalances_empty prf hb] at h
    simp only [Except.ok.injEq, Prod.mk.injEq] at h
    exact ⟨hb, h.1.symm, h.2.symm⟩
  · rw [newAccountBalances_nonempty prf hb] at h
    cases h

/-- C11 at the failing input: on the profile `cgrates.org:Profile_id1` of the clone test, whose
only balance is of type `*abstract`, `newAccountBalances` does not return a container: the
temporary slice holds a `nil` entry in front of the balance and the constructor panics with a nil
pointer dereference. -/
theorem newAccountBalances_cloneTestProfile_panics (fltrS : Option FilterS)
    (connMgr : Option ConnManager) (attrSConns rateSConns : List String) :
    abstractVoiceBalance.Typ = MetaAbstract
      ∧ newAccountBalances (some cloneTestProfile) fltrS connMgr attrSConns rateSConns
          = .error .nilDereference :=
  ⟨rfl, newAccountBalances_nonempty cloneTestProfile (by simp [cloneTestProfile]) fltrS connMgr
    attrSConns rateSConns⟩

/-- C12 at the failing input: for the profile `cgrates.org:test_ID1`, which has one balance, the
balance list handed to the sort has two entries, the first of them `nil`. -/
theorem collectBalances_apiTestProfile :
    apiTestProfile.Balances.length = 1
      ∧ (collectBalances apiTestProfile).length = 2
      ∧ (collectBalances apiTestProfile).get? 0 = some none
      ∧ collectBalances apiTestProfile = none :: apiTestProfile.Balances.map Prod.snd :=
  ⟨rfl, rfl, rfl, rfl⟩

/-! ## Identity of a profile -/

/-- C15: for every account profile, `TenantID` is the profile's `Tenant`, then a colon, then its
`ID`; the tenant `cgrates.org` and the ID `test_ID1` give `cgrates.org:test_ID1`. -/
theorem tenantID_is_tenant_colon_id (ap : AccountProfile) :
    ap.TenantID = ap.Tenant ++ ":" ++ ap.ID
      ∧ emptyProfile.TenantID = "cgrates.org:test_ID1" := by
  constructor
  · simp [AccountProfile.TenantID, String.intercalate, String.intercalate.go]
  · decide

/-! ## The loops of the constructor on allocated maps -/

theorem lookup_cons_self {V : Type} (a : String) (b : V) (rest : List (String × V)) :
    List.lookup a ((a, b) :: rest) = some b := by
  simp [List.lookup]

theorem lookup_cons_ne {V : Type} {k1 a : String} (h : k1 ≠ a) (b : V)
    (rest : List (String × V)) :
    List.lookup k1 ((a, b) :: rest) = List.lookup k1 rest := by
  have hb : (k1 == a) = false := by simpa using h
  simp [List.lookup, hb]

theorem lookup_map_replace {V : Type} (l : List (String × V)) (k k1 : String) (v : V) :
    (l.map fun e => if e.1 == k then (k, v) else e).lookup k1
      = if k1 = k then (l.lookup k).map (fun _ => v) else l.lookup k1 := by
  induction l with
  | nil => simp
  | cons e rest ih =>
      obtain ⟨a, b⟩ := e
      rw [List.map_cons]
      by_cases hak : a = k
      · subst hak
        have hf : (if ((a, b) : String × V).1 == a then (a, v) else (a, b)) = (a, v) := by simp
        rw [hf]
        by_cases h1 : k1 = a
        · subst h1
          rw [lookup_cons_self, lookup_cons_self, if_pos rfl]
          rfl
        · rw [lookup_cons_ne h1, lookup_cons_ne h1, ih, if_neg h1, if_neg h1]
      · have hf : (if ((a, b) : String × V).1 == k then (k, v) else (a, b)) = (a, b) := by
          simp [hak]
        rw [hf]
        by_cases h2 : k1 = a
        · subst h2
          rw [lookup_cons_self, lookup_cons_self, if_neg hak]
        · rw [lookup_cons_ne h2, lookup_cons_ne h2, ih,
            lookup_cons_ne (fun h => hak h.symm)]

theorem lookup_append_new {V : Type} (l : List (String × V)) (k k1 : String) (v : V)
    (hk : l.lookup k = none) :
    (l ++ [(k, v)]).lookup k1 = if k1 = k then some v else l.lookup k1 := by
  induction l with
  | nil =>
      by_cases h1 : k1 = k
      · subst h1
        rw [List.nil_append, lookup_cons_self, if_pos rfl]
      · rw [List.nil_append, lookup_cons_ne h1, if_neg h1]
  | cons e rest ih =>
      obtain ⟨a, b⟩ := e
      have hka : k ≠ a := by
        intro h
        subst h
        rw [lookup_cons_self] at hk
        cases hk
      rw [lookup_cons_ne hka] at hk
      rw [List.cons_append]
      by_cases h2 : k1 = a
      · subst h2
        rw [lookup_cons_self, lookup_cons_self, if_neg (fun h => hka h.symm)]
      · rw [lookup_cons_ne h2, lookup_cons_ne h2, ih hk]

theorem any_key_eq_false {V : Type} (l : List (String × V)) (k : String)
    (h : l.any (fun e => e.1 == k) = false) : l.lookup k = none := by
  induction l with
  | nil => rfl
  | cons e rest ih =>
      obtain ⟨a, b⟩ := e
      simp only [List.any_cons, Bool.or_eq_false_iff, beq_eq_false_iff_ne, ne_eq] at h
      rw [lookup_cons_ne (fun h1 => h.1 h1.symm), ih h.2]

theorem any_key_eq_true {V : Type} (l : List (String × V)) (k : String)
    (h : l.any (fun e => e.1 == k) = true) : ∃ v, l.lookup k = some v := by
  induction l with
  | nil => simp at h
  | cons e rest ih =>
      obtain ⟨a, b⟩ := e
      by_cases hka : k = a
      · subst hka
        exact ⟨b, lookup_cons_self _ _ _⟩
      · have hak : (a == k) = false := by
          simpa using fun h1 : a = k => hka h1.symm
        rw [List.any_cons, hak, Bool.false_or] at h
        obtain ⟨v, hv⟩ := ih h
        exact ⟨v, by rw [lookup_cons_ne hka, hv]⟩

theorem GoMap.set_some {V : Type} (l : List (String × V)) (k : String) (v : V) :
    ∃ l1, GoMap.set (some l) k v = .ok (some l1)
      ∧ ∀ k1, l1.lookup k1 = if k1 = k then some v else l.lookup k1 := by
  cases h : l.any (fun e => e.1 == k) with
  | true =>
      refine ⟨l.map fun e => if e.1 == k then (k, v) else e, ?_, ?_⟩
      · simp only [GoMap.set, h, if_true]
      · intro k1
        obtain ⟨v0, hv0⟩ := any_key_eq_true l k h
        rw [lookup_map_replace, hv0]
        rfl
  | false =>
      refine ⟨l ++ [(k, v)], ?_, ?_⟩
      · simp [GoMap.set, h]
      · intro k1
        exact lookup_append_new l k k1 v (any_key_eq_false l k h)

theorem positionsFrom_eq (t : String) (l : List (Option Balance)) (i : Nat) :
    positionsFrom t i l = (positionsOfType l t).map (· + i) := by
  induction l generalizing i with
  | nil => rfl
  | cons p rest ih =>
      have hstep : positionsOfType (p :: rest) t
          = (if hasType t p then [0] else [])
              ++ (positionsOfType rest t).map Nat.succ := by
        unfold positionsOfType
        rw [List.length_cons, List.range_succ_eq_map, List.filter_cons, List.filter_map]
        have hg : (fun i => hasType t (((p :: rest).get? i).getD none)) ∘ Nat.succ
            = fun i => hasType t ((rest.get? i).getD none) := by
          funext k
          simp
        rw [hg]
        cases hp : hasType t p <;> simp [hp]
      rw [hstep, positionsFrom, ih (i + 1)]
      have hm : ((positionsOfType rest t).map Nat.succ).map (· + i)
          = (positionsOfType rest t).map (· + (i + 1)) := by
        rw [List.map_map]
        apply List.map_congr_left
        intro k _
        simp only [Function.comp]
        omega
      cases hp : hasType t p <;> simp [hp, hm]

theorem positionsFrom_zero (t : String) (l : List (Option Balance)) :
    positionsFrom t 0 l = positionsOfType l t := by
  rw [positionsFrom_eq]
  simp

theorem populateTypIdx_some (cfgs : List Balance) (i : Nat) (m0 : List (String × List Nat)) :
    ∃ m, populateTypIdx i (cfgs.map some) (some m0) = .ok (some m)
      ∧ ∀ t, (m.lookup t).getD [] = (m0.lookup t).getD [] ++ positionsFrom t i (cfgs.map some) := by
  induction cfgs generalizing i m0 with
  | nil => exact ⟨m0, rfl, fun t => by simp [positionsFrom]⟩
  | cons cfg rest ih =>
      obtain ⟨l1, hset, hl1⟩ :=
        GoMap.set_some m0 cfg.Typ ((GoMap.get (some m0) cfg.Typ).getD [] ++ [i])
      obtain ⟨m, hm, hlook⟩ := ih (i + 1) l1
      refine ⟨m, ?_, ?_⟩
      · simp only [List.map_cons, populateTypIdx, deref, hset, hm]
      · intro t
        rw [hlook t, hl1 t, List.map_cons, positionsFrom]
        by_cases ht : t = cfg.Typ
        · subst ht
          simp [hasType, GoMap.get]
        · have hne : ¬ cfg.Typ = t := fun h => ht h.symm
          simp [hasType, ht, hne]

/-- The loop over `typIdx` on an allocated empty map: for every list of balances it returns
without panic, and the entry of every type tag is the list of the positions of that type. -/
theorem populateTypIdx_allocated (cfgs : List Balance) :
    ∃ m, populateTypIdx 0 (cfgs.map some) (some []) = .ok m
      ∧ ∀ t, (m.get t).getD [] = positionsOfType (cfgs.map some) t := by
  obtain ⟨m, hm, hlook⟩ := populateTypIdx_some cfgs 0 []
  refine ⟨some m, hm, ?_⟩
  intro t
  rw [← positionsFrom_zero]
  simpa [GoMap.get] using hlook t

theorem newAccountBalances_eq_populate (prf : AccountProfile)
    (fltrS : Option FilterS) (connMgr : Option ConnManager)
    (attrSConns rateSConns : List String) :
    newAccountBalances (some prf) fltrS connMgr attrSConns rateSConns
      = match Balances.Sort (collectBalances prf) with
        | .error e => .error e
        | .ok blncs =>
            populate fltrS connMgr attrSConns rateSConns
              { blnCfgs := blncs, typIdx := none, cncrtBlncs := [], opers := none,
                fltrS := none, connMgr := connMgr, attrSConns := attrSConns,
                rateSConns := rateSConns } := by
  rfl

theorem take_succ_set {α : Type} (l : List α) (i : Nat) (x : α) (h : i < l.length) :
    (l.set i x).take (i + 1) = l.take i ++ [x] := by
  induction l generalizing i with
  | nil => simp at h
  | cons a t ih =>
      cases i with
      | zero => simp
      | succ j =>
          have hj : j < t.length := by simpa using h
          simp [ih j hj]

theorem populateCncrtBlncs_some (fltrS : Option FilterS) (connMgr : Option ConnManager)
    (attrSConns rateSConns : List String) (cfgs : List Balance) (n : Nat)
    (idxs : List Nat) (hidx : ∀ idx ∈ idxs, idx < cfgs.length)
    (i : Nat) (a : accountBalances) (o0 : List (String × Option balanceOperator))
    (hb : a.blnCfgs = cfgs.map some) (ho : a.opers = some o0)
    (hn : a.cncrtBlncs.length = n) (hl : n = i + idxs.length) :
    ∃ a1 o1, populateCncrtBlncs fltrS connMgr attrSConns rateSConns i idxs a = .ok a1
      ∧ a1.blnCfgs = a.blnCfgs ∧ a1.typIdx = a.typIdx ∧ a1.fltrS = a.fltrS
      ∧ a1.connMgr = a.connMgr ∧ a1.attrSConns = a.attrSConns
      ∧ a1.rateSConns = a.rateSConns
      ∧ a1.cncrtBlncs = a.cncrtBlncs.take i
          ++ idxs.map (fun idx =>
              some (cncrtOpAt a.blnCfgs n fltrS connMgr attrSConns rateSConns idx))
      ∧ a1.opers = some o1
      ∧ ∀ id, o1.lookup id
          = idxs.foldl (fun acc idx =>
              if (((cfgs.get? idx).map fun cfg => cfg.ID) = some id) then
                some (some (.concrete
                  (cncrtOpAt a.blnCfgs n fltrS connMgr attrSConns rateSConns idx)))
              else acc) (o0.lookup id) := by
  induction idxs generalizing i a o0 with
  | nil =>
      refine ⟨a, o0, rfl, rfl, rfl, rfl, rfl, rfl, rfl, ?_, ho, fun id => rfl⟩
      have : a.cncrtBlncs.length ≤ i := by
        rw [hn, hl]
        simp
      simp [List.take_of_length_le this]
  | cons idx rest ih =>
      have hlt : idx < cfgs.length := hidx idx (List.mem_cons_self _ _)
      have hget : cfgs.get? idx = some (cfgs.get ⟨idx, hlt⟩) := List.get?_eq_get hlt
      generalize cfgs.get ⟨idx, hlt⟩ = cfg at hget
      have hbget : a.blnCfgs.get? idx = some (some cfg) := by
        rw [hb, List.get?_eq_getElem?, List.getElem?_map, ← List.get?_eq_getElem?, hget]
        rfl
      have hi : i < a.cncrtBlncs.length := by
        rw [hn, hl]
        simp
      obtain ⟨l1, hset, hl1⟩ := GoMap.set_some o0 cfg.ID
        (some (balanceOperator.concrete
          (cncrtOpAt a.blnCfgs n fltrS connMgr attrSConns rateSConns idx)))
      have hop : cncrtOpAt a.blnCfgs n fltrS connMgr attrSConns rateSConns idx
          = { blnCfg := some cfg, cncrtBlncs := { len := a.cncrtBlncs.length },
              fltrS := fltrS, connMgr := connMgr, attrSConns := attrSConns,
              rateSConns := rateSConns } := by
        unfold cncrtOpAt
        rw [hbget, hn]
        rfl
      obtain ⟨a1, o1, hrun, hf1, hf2, hf3, hf4, hf5, hf6, hc, ho1, hlook⟩ :=
        ih (fun j hj => hidx j (List.mem_cons_of_mem _ hj)) (i + 1)
          { a with
            cncrtBlncs := a.cncrtBlncs.set i
              (some (cncrtOpAt a.blnCfgs n fltrS connMgr attrSConns rateSConns idx)),
            opers := some l1 }
          l1 hb rfl (by simp [hn]) (by simp [hl]; omega)
      refine ⟨a1, o1, ?_, hf1, hf2, hf3, hf4, hf5, hf6, ?_, ho1, ?_⟩
      · rw [← hrun]
        simp only [populateCncrtBlncs, index, hbget, assertConcrete,
          newConcreteBalanceOperator, setAt, hi, if_true, deref, ho, hop] at hset ⊢
        rw [hset]
      · rw [hc]
        simp only [List.map_cons]
        rw [take_succ_set _ _ _ hi]
        simp
      · intro id
        rw [hlook id, List.foldl_cons, hl1 id, hget]
        by_cases hid : id = cfg.ID
        · subst hid
          simp
        · have hne : ¬ cfg.ID = id := fun h => hid h.symm
          simp [hid, hne]

theorem populateOpers_some (fltrS : Option FilterS) (connMgr : Option ConnManager)
    (attrSConns rateSConns : List String) (cfgs : List Balance)
    (hs : ∀ cfg ∈ cfgs, cfg.Typ = MetaConcrete ∨ cfg.Typ = MetaAbstract)
    (a : accountBalances) (o0 : List (String × Option balanceOperator))
    (ho : a.opers = some o0) :
    ∃ a1 o1, populateOpers fltrS connMgr attrSConns rateSConns (cfgs.map some) a
          = .ok (a1, none)
      ∧ a1.blnCfgs = a.blnCfgs ∧ a1.typIdx = a.typIdx ∧ a1.cncrtBlncs = a.cncrtBlncs
      ∧ a1.fltrS = a.fltrS ∧ a1.connMgr = a.connMgr ∧ a1.attrSConns = a.attrSConns
      ∧ a1.rateSConns = a.rateSConns
      ∧ a1.opers = some o1
      ∧ ∀ id, o1.lookup id
          = cfgs.foldl (fun acc cfg =>
              if cfg.Typ ≠ MetaConcrete ∧ cfg.ID = id then
                some (some (newAbstractBalanceOperator (some cfg) a.cncrtBlncs fltrS connMgr
                  attrSConns rateSConns))
              else acc) (o0.lookup id) := by
  induction cfgs generalizing a o0 with
  | nil => exact ⟨a, o0, rfl, rfl, rfl, rfl, rfl, rfl, rfl, rfl, ho, fun id => rfl⟩
  | cons cfg rest ih =>
      have hrest : ∀ c ∈ rest, c.Typ = MetaConcrete ∨ c.Typ = MetaAbstract :=
        fun c hc => hs c (List.mem_cons_of_mem _ hc)
      by_cases hc : cfg.Typ = MetaConcrete
      · obtain ⟨a1, o1, hrun, h1, h2, h3, h4, h5, h6, h7, h8, hlook⟩ := ih hrest a o0 ho
        refine ⟨a1, o1, ?_, h1, h2, h3, h4, h5, h6, h7, h8, ?_⟩
        · rw [← hrun]
          simp only [List.map_cons, populateOpers, deref, hc, if_true]
        · intro id
          rw [hlook id, List.foldl_cons]
          simp [hc]
      · have habs : cfg.Typ = MetaAbstract := (hs cfg (List.mem_cons_self _ _)).resolve_left hc
        obtain ⟨l1, hset, hl1⟩ := GoMap.set_some o0 cfg.ID
          (some (newAbstractBalanceOperator (some cfg) a.cncrtBlncs fltrS connMgr
            attrSConns rateSConns))
        obtain ⟨a1, o1, hrun, h1, h2, h3, h4, h5, h6, h7, h8, hlook⟩ :=
          ih hrest { a with opers := some l1 } l1 rfl
        refine ⟨a1, o1, ?_, h1, h2, h3, h4, h5, h6, h7, h8, ?_⟩
        · rw [← hrun]
          simp only [List.map_cons, populateOpers, deref, hc, if_false,
            newBalanceOperator_abstract cfg habs, ho, hset]
        · intro id
          rw [hlook id, List.foldl_cons, hl1 id]
          by_cases hid : id = cfg.ID
          · subst hid
            simp [hc]
          · have hne : ¬ cfg.ID = id := fun h => hid h.symm
            simp [hid, hne]

/-- The loop over `opers` on an allocated map: when some balance of the list has an unsupported
type, the loop returns the unsupported-type error of such a balance, without panic. -/
theorem populateOpers_unsupported (fltrS : Option FilterS) (connMgr : Option ConnManager)
    (attrSConns rateSConns : List String) (cfgs : List Balance)
    (hu : ∃ cfg ∈ cfgs, cfg.Typ ≠ MetaConcrete ∧ cfg.Typ ≠ MetaAbstract)
    (a : accountBalances) (o0 : List (String × Option balanceOperator))
    (ho : a.opers = some o0) :
    ∃ a1 cfg, populateOpers fltrS connMgr attrSConns rateSConns (cfgs.map some) a
          = .ok (a1, some (unsupportedBalanceType cfg.Typ))
      ∧ cfg ∈ cfgs ∧ cfg.Typ ≠ MetaConcrete ∧ cfg.Typ ≠ MetaAbstract := by
  induction cfgs generalizing a o0 with
  | nil =>
      obtain ⟨cfg, hmem, -⟩ := hu
      cases hmem
  | cons cfg rest ih =>
      by_cases hc : cfg.Typ = MetaConcrete
      · have hu1 : ∃ c ∈ rest, c.Typ ≠ MetaConcrete ∧ c.Typ ≠ MetaAbstract := by
          obtain ⟨c, hmem, h1, h2⟩ := hu
          rcases List.mem_cons.mp hmem with rfl | hmem
          · exact absurd hc h1
          · exact ⟨c, hmem, h1, h2⟩
        obtain ⟨a1, c, hrun, hmem, h1, h2⟩ := ih hu1 a o0 ho
        refine ⟨a1, c, ?_, List.mem_cons_of_mem _ hmem, h1, h2⟩
        rw [← hrun]
        simp only [List.map_cons, populateOpers, deref, hc, if_true]
      · by_cases habs : cfg.Typ = MetaAbstract
        · have hu1 : ∃ c ∈ rest, c.Typ ≠ MetaConcrete ∧ c.Typ ≠ MetaAbstract := by
            obtain ⟨c, hmem, h1, h2⟩ := hu
            rcases List.mem_cons.mp hmem with rfl | hmem
            · exact absurd habs h2
            · exact ⟨c, hmem, h1, h2⟩
          obtain ⟨l1, hset, -⟩ := GoMap.set_some o0 cfg.ID
            (some (newAbstractBalanceOperator (some cfg) a.cncrtBlncs fltrS connMgr
              attrSConns rateSConns))
          obtain ⟨a1, c, hrun, hmem, h1, h2⟩ := ih hu1 { a with opers := some l1 } l1 rfl
          refine ⟨a1, c, ?_, List.mem_cons_of_mem _ hmem, h1, h2⟩
          rw [← hrun]
          simp only [List.map_cons, populateOpers, deref, hc, if_false,
            newBalanceOperator_abstract cfg habs, ho, hset]
        · obtain ⟨l1, hset, -⟩ := GoMap.set_some o0 cfg.ID (none : Option balanceOperator)
          refine ⟨{ a with opers := some l1 }, cfg, ?_, List.mem_cons_self _ _, hc, habs⟩
          simp only [List.map_cons, populateOpers, deref, hc, if_false,
            newBalanceOperator_unsupported cfg hc habs, ho, hset]

theorem foldl_ite_const {α β : Type} (p : α → Prop) [DecidablePred p] (g : α → β) (v : β)
    (l : List α) (h : ∀ y ∈ l, p y → g y = v) :
    l.foldl (fun acc y => if p y then g y else acc) v = v := by
  induction l with
  | nil => rfl
  | cons y t ih =>
      rw [List.foldl_cons]
      by_cases hp : p y
      · rw [if_pos hp, h y (List.mem_cons_self _ _) hp]
        exact ih fun z hz => h z (List.mem_cons_of_mem _ hz)
      · rw [if_neg hp]
        exact ih fun z hz => h z (List.mem_cons_of_mem _ hz)

theorem foldl_ite_of_mem {α β : Type} (p : α → Prop) [DecidablePred p] (g : α → β) (x : α)
    (l : List α) (init : β) (hx : x ∈ l) (hp : p x) (h : ∀ y ∈ l, p y → g y = g x) :
    l.foldl (fun acc y => if p y then g y else acc) init = g x := by
  induction l generalizing init with
  | nil => cases hx
  | cons y t ih =>
      rw [List.foldl_cons]
      have ht : ∀ z ∈ t, p z → g z = g x := fun z hz => h z (List.mem_cons_of_mem _ hz)
      by_cases hxt : x ∈ t
      · exact ih _ hxt ht
      · have hxy : x = y := by
          rcases List.mem_cons.mp hx with h1 | h1
          · exact h1
          · exact absurd h1 hxt
        subst hxy
        rw [if_pos hp]
        exact foldl_ite_const p g (g x) t ht

theorem foldl_ite_none {α β : Type} (p : α → Prop) [DecidablePred p] (g : α → β)
    (l : List α) (init : β) (h : ∀ y ∈ l, ¬ p y) :
    l.foldl (fun acc y => if p y then g y else acc) init = init := by
  induction l generalizing init with
  | nil => rfl
  | cons y t ih =>
      rw [List.foldl_cons, if_neg (h y (List.mem_cons_self _ _))]
      exact ih _ fun z hz => h z (List.mem_cons_of_mem _ hz)

theorem foldl_ite_isSome {α β : Type} (p : α → Prop) [DecidablePred p] (g : α → β)
    (l : List α) (init : Option β) :
    (l.foldl (fun acc y => if p y then some (g y) else acc) init).isSome
      ↔ init.isSome ∨ ∃ y ∈ l, p y := by
  induction l generalizing init with
  | nil => simp
  | cons y t ih =>
      rw [List.foldl_cons, ih]
      by_cases hp : p y
      · simp [hp]
      · simp [hp]

theorem positionsFrom_map_get (t : String) (pre l : List (Option Balance)) :
    (positionsFrom t pre.length l).map (fun idx => ((pre ++ l).get? idx).getD none)
      = l.filter (hasType t) := by
  induction l generalizing pre with
  | nil => rfl
  | cons p rest ih =>
      have hstep := ih (pre ++ [p])
      rw [List.length_append, List.length_singleton, List.append_assoc,
        List.singleton_append] at hstep
      have hp : ((pre ++ p :: rest).get? pre.length).getD none = p := by
        rw [List.get?_eq_getElem?, List.getElem?_append_right (Nat.le_refl _), Nat.sub_self]
        simp
      cases hh : hasType t p
      · rw [positionsFrom, hh, List.filter_cons, hh]
        exact hstep
      · rw [positionsFrom, hh, List.filter_cons, hh, if_pos rfl, List.map_cons, hp, if_pos rfl,
          hstep]

theorem positionsOfType_map_get (t : String) (l : List (Option Balance)) :
    (positionsOfType l t).map (fun idx => (l.get? idx).getD none) = l.filter (hasType t) := by
  have h := positionsFrom_map_get t [] l
  rw [List.length_nil, positionsFrom_zero, List.nil_append] at h
  exact h

theorem mem_positionsOfType (t : String) (l : List (Option Balance)) (i : Nat) :
    i ∈ positionsOfType l t ↔ i < l.length ∧ hasType t ((l.get? i).getD none) = true := by
  simp [positionsOfType, List.mem_filter]

/-- The three loops of the constructor on a container whose two maps are allocated and whose
balance list holds no `nil` entry: when every balance has a supported type and the balance IDs
are distinct, the loops return without panic and without error, the type index is exact, the
concrete-operator list holds one operator per concrete balance in the order of the balance list,
and the operator map has an entry for exactly the balance IDs, the concrete ones pointing to
the operators of the concrete-operator list and the abstract ones to abstract operators. -/
theorem populate_allocated (fltrS : Option FilterS) (connMgr : Option ConnManager)
    (attrSConns rateSConns : List String) (cfgs : List Balance)
    (hs : ∀ cfg ∈ cfgs, cfg.Typ = MetaConcrete ∨ cfg.Typ = MetaAbstract)
    (hid : (cfgs.map fun cfg => cfg.ID).Nodup) :
    ∃ c, populate fltrS connMgr attrSConns rateSConns
          { blnCfgs := cfgs.map some, typIdx := some [], cncrtBlncs := [], opers := some [],
            fltrS := none, connMgr := connMgr, attrSConns := attrSConns,
            rateSConns := rateSConns } = .ok (c, none)
      ∧ c.blnCfgs = cfgs.map some
      ∧ (∀ t, (c.typIdx.get t).getD [] = positionsOfType c.blnCfgs t)
      ∧ (∀ i, i < c.blnCfgs.length → ∃! t, i ∈ (c.typIdx.get t).getD [])
      ∧ (∃ ops : List concreteBalance, c.cncrtBlncs = ops.map some
          ∧ ops.map (fun op => op.blnCfg) = c.blnCfgs.filter (hasType MetaConcrete))
      ∧ (∀ id, (c.opers.get id).isSome ↔ ∃ cfg ∈ cfgs, cfg.ID = id)
      ∧ (∀ op b, some op ∈ c.cncrtBlncs → op.blnCfg = some b →
          c.opers.get b.ID = some (some (.concrete op)))
      ∧ (∀ b, b ∈ cfgs → b.Typ = MetaAbstract →
          ∃ op, op.blnCfg = some b ∧ c.opers.get b.ID = some (some (.abstract op))) := by
  obtain ⟨m, hm, hlook⟩ := populateTypIdx_some cfgs 0 []
  have hexact : ∀ t, (GoMap.get (some m) t).getD [] = positionsOfType (cfgs.map some) t := by
    intro t
    rw [← positionsFrom_zero]
    simpa [GoMap.get] using hlook t
  have hbound : ∀ idx ∈ positionsOfType (cfgs.map some) MetaConcrete, idx < cfgs.length := by
    intro idx h
    simpa using ((mem_positionsOfType _ _ _).mp h).1
  obtain ⟨a3, o1, hrun3, hb3, ht3, -, -, -, -, hc3, ho3, hlook3⟩ :=
    populateCncrtBlncs_some fltrS connMgr attrSConns rateSConns cfgs
      (positionsOfType (cfgs.map some) MetaConcrete).length
      (positionsOfType (cfgs.map some) MetaConcrete) hbound 0
      { blnCfgs := cfgs.map some, typIdx := some m,
        cncrtBlncs := List.replicate (positionsOfType (cfgs.map some) MetaConcrete).length none,
        opers := some [], fltrS := none, connMgr := connMgr, attrSConns := attrSConns,
        rateSConns := rateSConns }
      [] rfl rfl (by simp) (by simp)
  dsimp only at hb3 ht3 hc3 hlook3
  obtain ⟨c, o2, hrun4, hb4, ht4, hc4, -, -, -, -, ho4, hlook4⟩ :=
    populateOpers_some fltrS connMgr attrSConns rateSConns cfgs hs a3 o1 ho3
  have hcb : c.blnCfgs = cfgs.map some := by rw [hb4, hb3]
  have hrun : populate fltrS connMgr attrSConns rateSConns
      { blnCfgs := cfgs.map some, typIdx := some [], cncrtBlncs := [], opers := some [],
        fltrS := none, connMgr := connMgr, attrSConns := attrSConns,
        rateSConns := rateSConns } = .ok (c, none) := by
    unfold populate
    simp only [hm, hexact MetaConcrete, hrun3]
    rw [hb3]
    exact hrun4
  have hco : ∀ id, c.opers.get id = o2.lookup id := by
    intro id
    rw [ho4]
    rfl
  have hinj : ∀ x ∈ cfgs, ∀ y ∈ cfgs, x.ID = y.ID → x = y :=
    fun x hx y hy hxy => List.inj_on_of_nodup_map hid hx hy hxy
  have hmemIdx : ∀ idx cfg, cfgs.get? idx = some cfg →
      (idx ∈ positionsOfType (cfgs.map some) MetaConcrete ↔ cfg.Typ = MetaConcrete) := by
    intro idx cfg hget
    have hlt : idx < cfgs.length := by
      rw [List.get?_eq_getElem?] at hget
      exact (List.getElem?_eq_some.mp hget).1
    have hL : ((cfgs.map some).get? idx).getD none = some cfg := by
      rw [List.get?_eq_getElem?, List.getElem?_map, ← List.get?_eq_getElem?, hget]
      rfl
    rw [mem_positionsOfType, hL]
    simp [hasType, hlt]
  have hidxGet : ∀ idx ∈ positionsOfType (cfgs.map some) MetaConcrete,
      ∃ cfg, cfgs.get? idx = some cfg ∧ cfg ∈ cfgs ∧ cfg.Typ = MetaConcrete
        ∧ ((cfgs.map some).get? idx).getD none = some cfg := by
    intro idx hmem
    have hlt := hbound idx hmem
    have hget : cfgs.get? idx = some (cfgs.get ⟨idx, hlt⟩) := List.get?_eq_get hlt
    refine ⟨_, hget, List.get_mem cfgs idx hlt, (hmemIdx idx _ hget).mp hmem, ?_⟩
    rw [List.get?_eq_getElem?, List.getElem?_map, ← List.get?_eq_getElem?, hget]
    rfl
  have hconcrete : ∀ idx ∈ positionsOfType (cfgs.map some) MetaConcrete, ∀ b,
      ((cfgs.map some).get? idx).getD none = some b →
      o2.lookup b.ID = some (some (.concrete
        (cncrtOpAt (cfgs.map some) (positionsOfType (cfgs.map some) MetaConcrete).length
          fltrS connMgr attrSConns rateSConns idx))) := by
    intro idx hmem b hb
    obtain ⟨cfg, hget, hcfg, htyp, hL⟩ := hidxGet idx hmem
    have hbc : cfg = b := by
      rw [hL] at hb
      exact Option.some.inj hb
    subst hbc
    rw [hlook4 cfg.ID]
    rw [foldl_ite_none (fun y : Balance => y.Typ ≠ MetaConcrete ∧ y.ID = cfg.ID) _ cfgs _
      (fun y hy hp => hp.1 (by rw [hinj y hy cfg hcfg hp.2]; exact htyp))]
    rw [hlook3 cfg.ID]
    rw [foldl_ite_of_mem (fun j : Nat => (cfgs.get? j).map (fun c => c.ID) = some cfg.ID)
      (fun j => some (some (balanceOperator.concrete
        (cncrtOpAt (cfgs.map some) (positionsOfType (cfgs.map some) MetaConcrete).length
          fltrS connMgr attrSConns rateSConns j)))) idx _ _ hmem
      (by show (cfgs.get? idx).map (fun c => c.ID) = some cfg.ID; rw [hget]; rfl)]
    intro j hj hpj
    obtain ⟨cfgj, hgetj, hcfgj, -, hLj⟩ := hidxGet j hj
    have hjeq : cfgj = cfg := by
      rw [hgetj] at hpj
      exact hinj cfgj hcfgj cfg hcfg (by simpa using hpj)
    simp only [cncrtOpAt, hLj, hL, hjeq]
  refine ⟨c, hrun, hcb, ?_, ?_, ?_, ?_, ?_, ?_⟩
  · intro t
    rw [ht4, ht3, hcb]
    exact hexact t
  · intro i hi
    rw [hcb, List.length_map] at hi
    have hget : cfgs.get? i = some (cfgs.get ⟨i, hi⟩) := List.get?_eq_get hi
    generalize cfgs.get ⟨i, hi⟩ = cfg at hget
    have hL : ((cfgs.map some).get? i).getD none = some cfg := by
      rw [List.get?_eq_getElem?, List.getElem?_map, ← List.get?_eq_getElem?, hget]
      rfl
    have hmem : ∀ t, i ∈ (c.typIdx.get t).getD [] ↔ cfg.Typ = t := by
      intro t
      rw [ht4, ht3]
      show i ∈ (GoMap.get (some m) t).getD [] ↔ _
      rw [hexact t, mem_positionsOfType, hL]
      simp [hasType, hi]
    exact ⟨cfg.Typ, (hmem _).mpr rfl, fun t ht => ((hmem t).mp ht).symm⟩
  · refine ⟨(positionsOfType (cfgs.map some) MetaConcrete).map
      (cncrtOpAt (cfgs.map some) (positionsOfType (cfgs.map some) MetaConcrete).length
        fltrS connMgr attrSConns rateSConns), ?_, ?_⟩
    · rw [hc4, hc3]
      simp [List.map_map, Function.comp]
    · rw [hcb, List.map_map, ← positionsOfType_map_get]
      rfl
  · intro id
    rw [hco, hlook4 id,
      foldl_ite_isSome (fun y : Balance => y.Typ ≠ MetaConcrete ∧ y.ID = id)
        (fun y => some (newAbstractBalanceOperator (some y) a3.cncrtBlncs fltrS connMgr
          attrSConns rateSConns)),
      hlook3 id,
      foldl_ite_isSome (fun j : Nat => (cfgs.get? j).map (fun c => c.ID) = some id)
        (fun j => some (balanceOperator.concrete
          (cncrtOpAt (cfgs.map some) (positionsOfType (cfgs.map some) MetaConcrete).length
            fltrS connMgr attrSConns rateSConns j)))]
    constructor
    · rintro ((h | ⟨j, hj, hpj⟩) | ⟨y, hy, -, hyid⟩)
      · simp at h
      · obtain ⟨cfgj, hgetj, hcfgj, -, -⟩ := hidxGet j hj
        rw [hgetj] at hpj
        exact ⟨cfgj, hcfgj, by simpa using hpj⟩
      · exact ⟨y, hy, hyid⟩
    · rintro ⟨cfg, hcfg, hcid⟩
      by_cases htyp : cfg.Typ = MetaConcrete
      · obtain ⟨j, hj⟩ := List.get?_of_mem hcfg
        exact Or.inl (Or.inr ⟨j, (hmemIdx j cfg hj).mpr htyp, by rw [hj, ← hcid]; rfl⟩)
      · exact Or.inr ⟨cfg, hcfg, htyp, hcid⟩
  · intro op b hop hb
    rw [hc4, hc3] at hop
    simp only [List.take_zero, List.nil_append, List.mem_map] at hop
    obtain ⟨idx, hmem, hopeq⟩ := hop
    have hopeq1 := Option.some.inj hopeq
    subst hopeq1
    rw [hco]
    exact hconcrete idx hmem b hb
  · intro b hbmem htyp
    have hne : b.Typ ≠ MetaConcrete := by
      rw [htyp]
      decide
    refine ⟨{ blnCfg := some b, cncrtBlncs := { len := a3.cncrtBlncs.length }, fltrS := fltrS,
              connMgr := connMgr, attrSConns := attrSConns, rateSConns := rateSConns },
      rfl, ?_⟩
    rw [hco, hlook4 b.ID,
      foldl_ite_of_mem (fun y : Balance => y.Typ ≠ MetaConcrete ∧ y.ID = b.ID)
        (fun y => some (some (newAbstractBalanceOperator (some y) a3.cncrtBlncs fltrS connMgr
          attrSConns rateSConns))) b cfgs _ hbmem ⟨hne, rfl⟩
        (fun y hy hp => by rw [hinj y hy b hbmem hp.2])]
    rfl

/-- The three loops on a container whose maps are allocated and whose balance list holds a
concrete and an abstract balance: the type index, the number of concrete operators and the
absence of error. -/
theorem populate_allocated_supported :
    (populate none none [] []
        { blnCfgs := [some zeroIncrementBalance, some absentIncrementBalance],
          typIdx := some [], cncrtBlncs := [], opers := some [], fltrS := none,
          connMgr := none, attrSConns := [], rateSConns := [] }).map
        (fun r => (r.1.typIdx, r.1.cncrtBlncs.length, r.2))
      = .ok (some [("*concrete", [0]), ("*abstract", [1])], 1, none) := by
  rfl

/-- The three loops on a container whose maps are allocated and whose balance list holds the two
balances of the test profile, of unsupported types: the unsupported-type error is returned. -/
theorem populate_allocated_unsupported :
    (populate none none [] []
        { blnCfgs := [some voiceBalance, some monetaryBalance],
          typIdx := some [], cncrtBlncs := [], opers := some [], fltrS := none,
          connMgr := none, attrSConns := [], rateSConns := [] }).map Prod.snd
      = .ok (some "unsupported balance type: <*voice>") := by
  rfl

/-! ## The service handles of the container -/

theorem populateCncrtBlncs_handles (fltrS : Option FilterS) (connMgr : Option ConnManager)
    (attrSConns rateSConns : List String) (idxs : List Nat) (i : Nat)
    (a a1 : accountBalances)
    (h : populateCncrtBlncs fltrS connMgr attrSConns rateSConns i idxs a = .ok a1) :
    a1.fltrS = a.fltrS ∧ a1.connMgr = a.connMgr ∧ a1.attrSConns = a.attrSConns
      ∧ a1.rateSConns = a.rateSConns := by
  induction idxs generalizing i a with
  | nil =>
      simp only [populateCncrtBlncs, Except.ok.injEq] at h
      subst h
      exact ⟨rfl, rfl, rfl, rfl⟩
  | cons idx rest ih =>
      simp only [populateCncrtBlncs] at h
      split at h
      · cases h
      · split at h
        · cases h
        · split at h
          · cases h
          · split at h
            · cases h
            · split at h
              · cases h
              · have hh := ih _ _ h
                exact hh

theorem populateOpers_handles (fltrS : Option FilterS) (connMgr : Option ConnManager)
    (attrSConns rateSConns : List String) (l : List (Option Balance))
    (a a1 : accountBalances) (err : Option String)
    (h : populateOpers fltrS connMgr attrSConns rateSConns l a = .ok (a1, err)) :
    a1.fltrS = a.fltrS ∧ a1.connMgr = a.connMgr ∧ a1.attrSConns = a.attrSConns
      ∧ a1.rateSConns = a.rateSConns := by
  induction l generalizing a with
  | nil =>
      simp only [populateOpers, Except.ok.injEq, Prod.mk.injEq] at h
      obtain ⟨h1, -⟩ := h
      subst h1
      exact ⟨rfl, rfl, rfl, rfl⟩
  | cons p rest ih =>
      simp only [populateOpers] at h
      split at h
      · cases h
      · split at h
        · exact ih _ h
        · split at h
          · cases h
          · split at h
            · cases h
            · split at h
              · simp only [Except.ok.injEq, Prod.mk.injEq] at h
                obtain ⟨h1, -⟩ := h
                subst h1
                exact ⟨rfl, rfl, rfl, rfl⟩
              · have hh := ih _ h
                exact hh

theorem populate_handles (fltrS : Option FilterS) (connMgr : Option ConnManager)
    (attrSConns rateSConns : List String) (a c : accountBalances) (err : Option String)
    (h : populate fltrS connMgr attrSConns rateSConns a = .ok (c, err)) :
    c.fltrS = a.fltrS ∧ c.connMgr = a.connMgr ∧ c.attrSConns = a.attrSConns
      ∧ c.rateSConns = a.rateSConns := by
  simp only [populate] at h
  split at h
  · cases h
  · split at h
    · cases h
    · rename_i a3 h3
      obtain ⟨h1, h2, h3a, h4⟩ := populateCncrtBlncs_handles _ _ _ _ _ _ _ _ h3
      obtain ⟨g1, g2, g3, g4⟩ := populateOpers_handles _ _ _ _ _ _ _ _ h
      exact ⟨g1.trans h1, g2.trans h2, g3.trans h3a, g4.trans h4⟩

/-- Whenever the constructor returns a container, with or without error, the fields `connMgr`,
`attrSConns` and `rateSConns` hold the handles it was given, and the field `fltrS` is `nil`. -/
theorem newAccountBalances_handles (prf : AccountProfile)
    (fltrS : Option FilterS) (connMgr : Option ConnManager)
    (attrSConns rateSConns : List String) (c : accountBalances) (err : Option String)
    (h : newAccountBalances (some prf) fltrS connMgr attrSConns rateSConns = .ok (c, err)) :
    c.fltrS = none ∧ c.connMgr = connMgr ∧ c.attrSConns = attrSConns
      ∧ c.rateSConns = rateSConns := by
  rw [newAccountBalances_eq_populate] at h
  split at h
  · cases h
  · exact populate_handles _ _ _ _ _ _ _ h

/-- C21 at the failing input: on the profile without balances and with a filter service, a
connection manager and connection lists given, the constructor returns a container whose
`connMgr`, `attrSConns` and `rateSConns` are the handles given, and whose `fltrS` is `nil`, not
the filter service given. -/
theorem newAccountBalances_drops_fltrS :
    newAccountBalances (some emptyProfile) (some { ref := 1 }) (some { ref := 2 })
        ["*internal:attributes"] ["*internal:rates"]
        = .ok (emptyContainer (some { ref := 2 }) ["*internal:attributes"] ["*internal:rates"],
            none)
      ∧ (emptyContainer (some { ref := 2 }) ["*internal:attributes"]
          ["*internal:rates"]).fltrS = none
      ∧ (emptyContainer (some { ref := 2 }) ["*internal:attributes"]
          ["*internal:rates"]).fltrS ≠ some { ref := 1 }
      ∧ (emptyContainer (some { ref := 2 }) ["*internal:attributes"]
          ["*internal:rates"]).connMgr = some { ref := 2 }
      ∧ (emptyContainer (some { ref := 2 }) ["*internal:attributes"]
          ["*internal:rates"]).attrSConns = ["*internal:attributes"]
      ∧ (emptyContainer (some { ref := 2 }) ["*internal:attributes"]
          ["*internal:rates"]).rateSConns = ["*internal:rates"] :=
  ⟨rfl, rfl, by decide, rfl, rfl, rfl⟩

/-! ## The ordered list and the indexes on a profile with balances -/

theorem populateTypIdx_nonempty (i : Nat) (l : List (Option Balance)) (h : l ≠ []) :
    ∃ p, populateTypIdx i l none = .error p := by
  obtain ⟨blnCfg, rest, hl⟩ := List.exists_cons_of_ne_nil h
  rw [hl]
  exact populateTypIdx_nil_map i blnCfg rest

theorem populateCncrtBlncs_nil_opers (fltrS : Option FilterS) (connMgr : Option ConnManager)
    (attrSConns rateSConns : List String) (i blncIdx : Nat) (rest : List Nat)
    (a : accountBalances) (h : a.opers = none) :
    ∃ p, populateCncrtBlncs fltrS connMgr attrSConns rateSConns i (blncIdx :: rest) a
      = .error p := by
  cases hidx : index a.blnCfgs blncIdx with
  | error e => exact ⟨e, by simp only [populateCncrtBlncs, hidx]⟩
  | ok blnCfg =>
      cases hset : setAt a.cncrtBlncs i
          (some { blnCfg := blnCfg, cncrtBlncs := { len := a.cncrtBlncs.length },
                  fltrS := fltrS, connMgr := connMgr, attrSConns := attrSConns,
                  rateSConns := rateSConns }) with
      | error e =>
          exact ⟨e, by
            simp only [populateCncrtBlncs, hidx, assertConcrete, newConcreteBalanceOperator,
              hset]⟩
      | ok cncrtBlncs =>
          cases blnCfg with
          | none =>
              exact ⟨.nilDereference, by
                simp only [populateCncrtBlncs, hidx, assertConcrete,
                  newConcreteBalanceOperator, hset, deref]⟩
          | some cfg =>
              exact ⟨.nilMapAssignment, by
                simp only [populateCncrtBlncs, hidx, assertConcrete,
                  newConcreteBalanceOperator, hset, deref, h, GoMap.set]⟩

theorem populateOpers_nil_opers (fltrS : Option FilterS) (connMgr : Option ConnManager)
    (attrSConns rateSConns : List String) (cfg : Balance) (rest : List (Option Balance))
    (a : accountBalances) (h : a.opers = none) (ht : cfg.Typ ≠ MetaConcrete) :
    populateOpers fltrS connMgr attrSConns rateSConns (some cfg :: rest) a
      = .error .nilMapAssignment := by
  by_cases habs : cfg.Typ = MetaAbstract
  · simp only [populateOpers, deref, ht, if_false, newBalanceOperator_abstract cfg habs, h,
      GoMap.set]
  · simp only [populateOpers, deref, ht, if_false,
      newBalanceOperator_unsupported cfg ht habs, h, GoMap.set]

/-- The result of the constructor does not depend on the order in which the `Balances` map is
visited. -/
theorem newAccountBalances_order_independent (prf1 prf2 : AccountProfile)
    (hp : prf1.Balances.Perm prf2.Balances)
    (fltrS : Option FilterS) (connMgr : Option ConnManager)
    (attrSConns rateSConns : List String) :
    newAccountBalances (some prf1) fltrS connMgr attrSConns rateSConns
      = newAccountBalances (some prf2) fltrS connMgr attrSConns rateSConns := by
  by_cases h1 : prf1.Balances = []
  · have h2 : prf2.Balances = [] := by
      rw [h1] at hp
      exact List.Perm.eq_nil hp.symm
    rw [newAccountBalances_empty prf1 h1, newAccountBalances_empty prf2 h2]
  · have h2 : prf2.Balances ≠ [] := by
      intro h2
      rw [h2] at hp
      exact h1 (List.Perm.eq_nil hp)
    rw [newAccountBalances_nonempty prf1 h1, newAccountBalances_nonempty prf2 h2]

/-- C13 at the failing input: on the profile with the balances of weight 11/10 and 10, the slice
handed to the sort holds two `nil` entries in front of the two balances, the sort reads a `nil`
entry, and the constructor panics: no balance list in descending weight order is built.  A
profile with the single balance of the sort test gives a slice of two entries, not a one-element
list, and panics in the same way. -/
theorem newAccountBalances_supportedProfile_unordered :
    collectBalances supportedProfile
        = [none, none, some abstractVoiceBalance, some concreteMonetaryBalance]
      ∧ Balances.Sort (collectBalances supportedProfile) = .error .nilDereference
      ∧ newAccountBalances (some supportedProfile) none none [] [] = .error .nilDereference
      ∧ collectBalances { supportedProfile with Balances := [("VoiceBalance", some apiBalance)] }
          = [none, some apiBalance]
      ∧ newAccountBalances
          (some { supportedProfile with Balances := [("VoiceBalance", some apiBalance)] })
          none none [] [] = .error .nilDereference :=
  ⟨rfl, rfl, rfl, rfl, rfl⟩

/-- C14 at the failing input: on the profile of the tie scenario, with `VoiceBalance` and
`MonetaryBalance` both of weight 10, the first entry of the slice is `nil`, not `VoiceBalance`,
and the constructor panics in either order of visit: no list with `VoiceBalance` first is
built. -/
theorem newAccountBalances_tieProfile_no_list :
    collectBalances tieProfile
        = [none, none, some tieVoiceBalance, some concreteMonetaryBalance]
      ∧ (collectBalances tieProfile).get? 0 = some none
      ∧ newAccountBalances (some tieProfile) none none [] [] = .error .nilDereference
      ∧ newAccountBalances (some tieProfileReversed) none none [] []
          = .error .nilDereference :=
  ⟨rfl, rfl, rfl, rfl⟩

/-- C18 at the failing input: on the profile with a concrete and an abstract balance the
constructor panics and no type index is built.  The loop over `typIdx` panics on the slice as the
constructor builds it, and on the two balances alone as well, where its first statement is a
write to the map that the constructor never allocates. -/
theorem populateTypIdx_supportedProfile_panics :
    newAccountBalances (some supportedProfile) none none [] [] = .error .nilDereference
      ∧ populateTypIdx 0 (collectBalances supportedProfile) none = .error .nilDereference
      ∧ populateTypIdx 0 [some concreteMonetaryBalance, some abstractVoiceBalance] none
          = .error .nilMapAssignment
      ∧ populateTypIdx 0 [some abstractVoiceBalance, some concreteMonetaryBalance] none
          = .error .nilMapAssignment :=
  ⟨rfl, rfl, rfl, rfl⟩

/-- C19 at the failing input: on the profile with a concrete and an abstract balance the
constructor panics and no concrete operator is built.  Run on the two balances with their type
index, the loop over `cncrtBlncs` panics at its first pass, where it registers the operator in
the map `opers` that the constructor never allocates. -/
theorem populateCncrtBlncs_supportedProfile_panics :
    newAccountBalances (some supportedProfile) (some { ref := 1 }) none [] []
        = .error .nilDereference
      ∧ populateCncrtBlncs none none [] [] 0 [0]
          { blnCfgs := [some concreteMonetaryBalance, some abstractVoiceBalance],
            typIdx := some [("*concrete", [0]), ("*abstract", [1])],
            cncrtBlncs := [none], opers := none, fltrS := none, connMgr := none,
            attrSConns := [], rateSConns := [] }
          = .error .nilMapAssignment :=
  ⟨rfl, rfl⟩

/-- C20 at the failing input: on the profile with a concrete and an abstract balance the
constructor panics and no operator map is built.  Run on the two balances, the loop over `opers`
skips the concrete balance and panics at the abstract one, where it stores the operator in the
map `opers` that the constructor never allocates. -/
theorem populateOpers_supportedProfile_panics :
    newAccountBalances (some supportedProfile) none (some { ref := 2 }) [] []
        = .error .nilDereference
      ∧ populateOpers none none [] []
          [some concreteMonetaryBalance, some abstractVoiceBalance]
          { blnCfgs := [some concreteMonetaryBalance, some abstractVoiceBalance],
            typIdx := some [("*concrete", [0]), ("*abstract", [1])],
            cncrtBlncs := [none], opers := none, fltrS := none, connMgr := none,
            attrSConns := [], rateSConns := [] }
          = .error .nilMapAssignment :=
  ⟨rfl, rfl⟩

end Accounts
